import Mathlib

/-!
# Verification of the `asynctask` orchestrator (`src/asynctask.go`)

Shallow embedding of the concurrent task orchestrator.  Go `interface{}`
values become `GoVal`, Go `error` values become their message `String`
(`none` = nil error).  The behaviour of a runner's stored function
`r.f(r.param)` is abstracted into an observable outcome (`FnOutcome`),
since Lean functions are total, cannot panic and take no time.

Concurrency is embedded by an explicit schedule: each admitted runner's
goroutine either completes during the admission loop (`eager = true`) or
only while `StartAndWait` blocks in `wg.Wait()` (`eager = false`), and
`takeCtxDone` resolves the Go `select` race between a delivered result and
an already-fired cancellation signal.  The model executes the chosen
interleaving deterministically; theorems quantify over the schedule.
-/

/-- Go `interface{}` values that flow through the orchestrator: the untyped
nil, scalars, and `[]interface{}` slices (used for multiple-result keys). -/
inductive GoVal where
  | nil : GoVal
  | str : String → GoVal
  | int : Int → GoVal
  | bool : Bool → GoVal
  | arr : List GoVal → GoVal

/-- Go's `resp == nil` test on an `interface{}` value. -/
def GoVal.isNil : GoVal → Bool
  | .nil => true
  | _ => false

/-- Observable behaviour of `r.f(r.param)`: returns a value with nil error,
returns a non-nil error, panics (carrying the panic message and the stack
trace captured by `debug.Stack()`), or fails to deliver a result before any
deadline or cancellation fires (`never`). -/
inductive FnOutcome where
  | ok : GoVal → FnOutcome
  | fnErr : String → FnOutcome
  | panics : String → String → FnOutcome
  | never : FnOutcome

/-- `Runner` of `src/asynctask.go`: id, `multiple` flag, timeout duration
(int64 nanoseconds; `int64(r.timeout) > 0` enables the per-runner deadline),
and the abstracted function behaviour. -/
structure Runner where
  id : String
  multiple : Bool
  timeout : Int
  outcome : FnOutcome

/-- `AsyncTask` of `src/asynctask.go`.  `cancelled` models `b.ctx.Done()`
having fired; `err` is the single batch error slot; `mapResult` is the Go
map (a lookup of an absent key yields Go's nil, modelled by `none`). -/
structure AsyncTask where
  cancelled : Bool
  err : Option String
  cancelOnError : Bool
  runnerPoolSize : Int
  runners : List Runner
  mapResult : String → Option GoVal

/-- `NewAsyncTask`: fresh orchestrator, cancel-on-error enabled, pool size 0. -/
def NewAsyncTask : AsyncTask :=
  { cancelled := false
    err := none
    cancelOnError := true
    runnerPoolSize := 0
    runners := []
    mapResult := fun _ => none }

/-- `SetRunnerPoolSize`: stores the requested size verbatim. -/
def SetRunnerPoolSize (b : AsyncTask) (size : Int) : AsyncTask :=
  { b with runnerPoolSize := size }

/-- `CancelOnError`: sets the cancel-on-error flag. -/
def CancelOnError (b : AsyncTask) (flag : Bool) : AsyncTask :=
  { b with cancelOnError := flag }

/-- `Register`: appends a runner to the orchestrator's list. -/
def Register (b : AsyncTask) (r : Runner) : AsyncTask :=
  { b with runners := b.runners ++ [r] }

/-- `SetMultiple` on a runner. -/
def SetMultiple (r : Runner) : Runner :=
  { r with multiple := true }

/-- `SetTimeout` on a runner. -/
def SetTimeout (r : Runner) (x : Int) : Runner :=
  { r with timeout := x }

/-- `GetResult`: a Go map read; an absent key yields nil. -/
def GetResult (b : AsyncTask) (id : String) : GoVal :=
  (b.mapResult id).getD GoVal.nil

/-- `cancelContext`: cancels the shared context only when `cancelOnError`. -/
def cancelContext (b : AsyncTask) : AsyncTask :=
  if b.cancelOnError then { b with cancelled := true } else b

/-- Error message of the duplicate-ID check in `StartAndWait`. -/
def dupErrMsg (id : String) : String :=
  "ID " ++ id ++ " have been used before without `SetMultiple()`"

/-- Error message of the shape-mismatch branch in `processResp`. -/
def appendErrMsg : String :=
  "cannot append result. looks like the ID is used before without calling `SetMultiple()`"

/-- Error message of the timeout branch in `do`. -/
def timeLimitMsg (id : String) : String :=
  "runner with ID " ++ id ++ " reached its time limit"

/-- Error message built by `recovery` from a recovered panic. -/
def panicRecoveredMsg (msg stack : String) : String :=
  "panic recovered. message: " ++ msg ++ ". stacktrace: " ++ stack

/-- Go map store: point update of the result map. -/
def mapSet (m : String → Option GoVal) (k : String) (v : GoVal) :
    String → Option GoVal :=
  fun q => if q = k then some v else m q

/-- `processErr`: cancel the context (subject to the flag), then overwrite
the single error slot with this error. -/
def processErr (b : AsyncTask) (e : String) : AsyncTask :=
  let b1 := cancelContext b
  { b1 with err := some e }

/-- `recovery`: a recovered panic overwrites the error slot with a message
carrying the panic value and stack trace, then cancels subject to the flag. -/
def recovery (b : AsyncTask) (msg stack : String) : AsyncTask :=
  let b1 := { b with err := some (panicRecoveredMsg msg stack) }
  cancelContext b1

/-- `processResp` of `src/asynctask.go`: nil responses are dropped; a
multiple runner appends to the slice under its id (initialising an absent
or nil entry to an empty slice first) and records the "cannot append
result" error, without touching the map, when the entry is a non-nil
non-slice value; a non-multiple runner stores its response verbatim. -/
def processResp (r : Runner) (b : AsyncTask) (id : String) (resp : GoVal) :
    AsyncTask :=
  if resp.isNil then b
  else if r.multiple then
    match (b.mapResult id).getD GoVal.nil with
    | GoVal.nil =>
        { b with mapResult := mapSet b.mapResult id (GoVal.arr [resp]) }
    | GoVal.arr old =>
        { b with mapResult := mapSet b.mapResult id (GoVal.arr (old ++ [resp])) }
    | _ => { b with err := some appendErrMsg }
  else
    { b with mapResult := mapSet b.mapResult id resp }

/-- Schedule entry for one admitted runner: whether its goroutine completes
during the admission loop (`eager`) and which branch the `select` in `do`
takes when the batch context is already cancelled while the function's
result is also available (`takeCtxDone`). -/
structure Sched where
  eager : Bool
  takeCtxDone : Bool
deriving Repr, DecidableEq

/-- `do` of `src/asynctask.go` for one runner, given the batch state at the
moment its select resolves.  Returns `none` when the wrapper blocks forever
(nothing will ever be delivered and no Done channel can fire: this happens
for a panicking function when cancellation did not fire and no timeout is
set, and likewise for a never-delivering function). -/
def Runner.doRun (r : Runner) (s : Sched) (b : AsyncTask) : Option AsyncTask :=
  match r.outcome with
  | .ok resp =>
      if b.cancelled && s.takeCtxDone then some b
      else some (processResp r b r.id resp)
  | .fnErr e =>
      if b.cancelled && s.takeCtxDone then some b
      else some (processErr b e)
  | .panics msg stack =>
      let b1 := recovery b msg stack
      if b1.cancelled then some b1
      else if 0 < r.timeout then some (processErr b1 (timeLimitMsg r.id))
      else none
  | .never =>
      if 0 < r.timeout then
        if b.cancelled && s.takeCtxDone then some b
        else some (processErr b (timeLimitMsg r.id))
      else if b.cancelled then some b
      else none

/-- Result of a `StartAndWait` run: the Go runtime panic raised by
`make(chan int, n)` for negative `n`, a run in which some wrapper blocks
forever, or completion with the returned error, the orchestrator state at
the moment of return, the runners admitted but still in flight at that
moment, and the ids of the runners whose `do` actually executed. -/
inductive RunResult where
  | panicked : RunResult
  | hangs : RunResult
  | done : Option String → AsyncTask → List Runner → List String → RunResult

/-- Drain the in-flight (admitted, not yet completed) runners in order:
the `wg.Wait()` phase.  `none` when one of them blocks forever. -/
def runPend : AsyncTask → List (Runner × Sched) → List String →
    Option (AsyncTask × List String)
  | b, [], tr => some (b, tr)
  | b, (r, s) :: rest, tr =>
      match r.doRun s b with
      | none => none
      | some b1 => runPend b1 rest (tr ++ [r.id])

/-- The admission loop of `StartAndWait`: duplicate-ID check first (cancel
and return the error immediately, without waiting, when it fires), then the
pool gate when `runnerPoolSize > 0` (admission stops for good once the
context is cancelled; a full pool blocks until in-flight work completes,
modelled by draining the in-flight list), then the runner is launched.
After the loop, `wg.Wait()` drains the remaining in-flight runners and the
recorded batch error is returned. -/
def markSeen (seen : String → Bool) (id : String) : String → Bool :=
  fun q => if q = id then true else seen q

def admitLoop : AsyncTask → (String → Bool) → List (Runner × Sched) →
    List String → List (Runner × Sched) → RunResult
  | b, _, pend, tr, [] =>
      match runPend b pend tr with
      | none => RunResult.hangs
      | some (b1, tr1) => RunResult.done b1.err b1 [] tr1
  | b, seen, pend, tr, (r, s) :: rest =>
      if seen r.id && !r.multiple then
        RunResult.done (some (dupErrMsg r.id)) (cancelContext b)
          (pend.map Prod.fst) tr
      else
        if 0 < b.runnerPoolSize then
          if b.cancelled then
            match runPend b pend tr with
            | none => RunResult.hangs
            | some (b1, tr1) => RunResult.done b1.err b1 [] tr1
          else if b.runnerPoolSize ≤ (pend.length : Int) then
            match runPend b pend tr with
            | none => RunResult.hangs
            | some (b1, tr1) =>
                if s.eager then
                  match r.doRun s b1 with
                  | none => RunResult.hangs
                  | some b2 => admitLoop b2 (markSeen seen r.id) [] (tr1 ++ [r.id]) rest
                else admitLoop b1 (markSeen seen r.id) [(r, s)] tr1 rest
          else
            if s.eager then
              match r.doRun s b with
              | none => RunResult.hangs
              | some b1 => admitLoop b1 (markSeen seen r.id) pend (tr ++ [r.id]) rest
            else admitLoop b (markSeen seen r.id) (pend ++ [(r, s)]) tr rest
        else
          if s.eager then
            match r.doRun s b with
            | none => RunResult.hangs
            | some b1 => admitLoop b1 (markSeen seen r.id) pend (tr ++ [r.id]) rest
          else admitLoop b (markSeen seen r.id) (pend ++ [(r, s)]) tr rest

/-- Pair each registered runner with its schedule entry, by position. -/
def withSched (sf : Nat → Sched) : List Runner → Nat → List (Runner × Sched)
  | [], _ => []
  | r :: rest, i => (r, sf i) :: withSched sf rest (i + 1)

/-- `StartAndWait`: allocates the pool semaphore (`make(chan int, size)`
panics at run time for a negative size), then runs the admission loop over
the registered runners paired with their schedule entries. -/
def StartAndWait (b : AsyncTask) (sf : Nat → Sched) : RunResult :=
  if b.runnerPoolSize < 0 then RunResult.panicked
  else admitLoop b (fun _ => false) [] [] (withSched sf b.runners 0)

/-- Did the run complete (neither a runtime panic nor a hang)? -/
def RunResult.completed : RunResult → Bool
  | .done _ _ _ _ => true
  | _ => false

/-- The error returned to the caller (meaningful when completed). -/
def RunResult.returned : RunResult → Option String
  | .done e _ _ _ => e
  | _ => none

/-- The orchestrator state at the moment `StartAndWait` returned. -/
def RunResult.stateOf : RunResult → AsyncTask
  | .done _ st _ _ => st
  | _ => NewAsyncTask

/-- The runners admitted but still in flight when `StartAndWait` returned. -/
def RunResult.pendingOf : RunResult → List Runner
  | .done _ _ p _ => p
  | _ => []

/-- Ids of the runners whose `do` executed, in execution order. -/
def RunResult.traceOf : RunResult → List String
  | .done _ _ _ t => t
  | _ => []

/-- Raw result-map lookup at the moment of return (absent = `none`). -/
def RunResult.resMap (res : RunResult) (k : String) : Option GoVal :=
  res.stateOf.mapResult k

/-- `GetResult` applied to the state at the moment of return. -/
def RunResult.getRes (res : RunResult) (k : String) : GoVal :=
  GetResult res.stateOf k

/-- `s` contains `pat` as a substring. -/
def ContainsStr (s pat : String) : Prop :=
  ∃ pre post : String, s = pre ++ pat ++ post

/-- The error that a runner's `do` records into the batch slot when it is
executed from a live (non-cancelled) state with cancel-on-error enabled:
the function's own error, the converted panic, or the time-limit error. -/
def failMsg (r : Runner) : Option String :=
  match r.outcome with
  | .ok _ => none
  | .fnErr e => some e
  | .panics m st => some (panicRecoveredMsg m st)
  | .never => if 0 < r.timeout then some (timeLimitMsg r.id) else none

/-- Sufficient condition for a runner's wrapper to never block forever,
given the orchestrator's cancel-on-error flag. -/
def cannotHang (co : Bool) (r : Runner) : Bool :=
  match r.outcome with
  | .ok _ => true
  | .fnErr _ => true
  | .panics _ _ => co || decide (0 < r.timeout)
  | .never => decide (0 < r.timeout)

/-- The runner never records an error or cancellation of its own: its
function returns with a nil error. -/
def IsOkUnit (r : Runner) : Prop :=
  ∃ v, r.outcome = FnOutcome.ok v

/-- What a successful non-nil response leaves under the runner's key when
the key was unwritten before: nothing for the nil sentinel, a singleton
slice for a multiple runner, the value itself otherwise. -/
def okWrite (r : Runner) (v : GoVal) : Option GoVal :=
  if v.isNil then none
  else if r.multiple then some (GoVal.arr [v]) else some v

/-- Ids of a list of scheduled units. -/
def unitIds (l : List (Runner × Sched)) : List String :=
  l.map (fun p => p.1.id)

/-- The fields of the orchestrator that no runner step ever modifies. -/
def SameStruct (b b' : AsyncTask) : Prop :=
  b'.cancelOnError = b.cancelOnError ∧ b'.runnerPoolSize = b.runnerPoolSize ∧
    b'.runners = b.runners

theorem SameStruct.refl (b : AsyncTask) : SameStruct b b :=
  ⟨rfl, rfl, rfl⟩

theorem SameStruct.trans {a b c : AsyncTask} (h1 : SameStruct a b)
    (h2 : SameStruct b c) : SameStruct a c :=
  ⟨h2.1.trans h1.1, h2.2.1.trans h1.2.1, h2.2.2.trans h1.2.2⟩

@[simp] theorem cancelContext_err (b : AsyncTask) :
    (cancelContext b).err = b.err := by
  unfold cancelContext; split <;> rfl

@[simp] theorem cancelContext_mapResult (b : AsyncTask) :
    (cancelContext b).mapResult = b.mapResult := by
  unfold cancelContext; split <;> rfl

@[simp] theorem cancelContext_cancelOnError (b : AsyncTask) :
    (cancelContext b).cancelOnError = b.cancelOnError := by
  unfold cancelContext; split <;> rfl

@[simp] theorem cancelContext_runnerPoolSize (b : AsyncTask) :
    (cancelContext b).runnerPoolSize = b.runnerPoolSize := by
  unfold cancelContext; split <;> rfl

@[simp] theorem cancelContext_runners (b : AsyncTask) :
    (cancelContext b).runners = b.runners := by
  unfold cancelContext; split <;> rfl

@[simp] theorem cancelContext_cancelled (b : AsyncTask) :
    (cancelContext b).cancelled = (b.cancelled || b.cancelOnError) := by
  unfold cancelContext; split <;> simp_all

@[simp] theorem processErr_err (b : AsyncTask) (e : String) :
    (processErr b e).err = some e := rfl

@[simp] theorem processErr_cancelled (b : AsyncTask) (e : String) :
    (processErr b e).cancelled = (b.cancelled || b.cancelOnError) := by
  unfold processErr; simp

@[simp] theorem processErr_mapResult (b : AsyncTask) (e : String) :
    (processErr b e).mapResult = b.mapResult := by
  unfold processErr; simp

@[simp] theorem processErr_cancelOnError (b : AsyncTask) (e : String) :
    (processErr b e).cancelOnError = b.cancelOnError := by
  unfold processErr; simp

@[simp] theorem processErr_runnerPoolSize (b : AsyncTask) (e : String) :
    (processErr b e).runnerPoolSize = b.runnerPoolSize := by
  unfold processErr; simp

@[simp] theorem processErr_runners (b : AsyncTask) (e : String) :
    (processErr b e).runners = b.runners := by
  unfold processErr; simp

@[simp] theorem recovery_err (b : AsyncTask) (m st : String) :
    (recovery b m st).err = some (panicRecoveredMsg m st) := by
  unfold recovery; simp

@[simp] theorem recovery_cancelled (b : AsyncTask) (m st : String) :
    (recovery b m st).cancelled = (b.cancelled || b.cancelOnError) := by
  unfold recovery; simp

@[simp] theorem recovery_mapResult (b : AsyncTask) (m st : String) :
    (recovery b m st).mapResult = b.mapResult := by
  unfold recovery; simp

@[simp] theorem recovery_cancelOnError (b : AsyncTask) (m st : String) :
    (recovery b m st).cancelOnError = b.cancelOnError := by
  unfold recovery; simp

@[simp] theorem recovery_runnerPoolSize (b : AsyncTask) (m st : String) :
    (recovery b m st).runnerPoolSize = b.runnerPoolSize := by
  unfold recovery; simp

@[simp] theorem recovery_runners (b : AsyncTask) (m st : String) :
    (recovery b m st).runners = b.runners := by
  unfold recovery; simp

@[simp] theorem mapSet_same (m : String → Option GoVal) (k : String) (v : GoVal) :
    mapSet m k v k = some v := by
  unfold mapSet; simp

theorem mapSet_other (m : String → Option GoVal) (k q : String) (v : GoVal)
    (h : q ≠ k) : mapSet m k v q = m q := by
  unfold mapSet; simp [h]

theorem processResp_of_isNil (r : Runner) (b : AsyncTask) (id : String)
    (resp : GoVal) (h : resp.isNil = true) : processResp r b id resp = b := by
  unfold processResp; simp [h]

theorem processResp_single (r : Runner) (b : AsyncTask) (id : String)
    (resp : GoVal) (h1 : r.multiple = false) (h2 : resp.isNil = false) :
    processResp r b id resp = { b with mapResult := mapSet b.mapResult id resp } := by
  unfold processResp; simp [h1, h2]

theorem processResp_mult_none (r : Runner) (b : AsyncTask) (id : String)
    (resp : GoVal) (h1 : r.multiple = true) (h2 : resp.isNil = false)
    (h : b.mapResult id = none) :
    processResp r b id resp =
      { b with mapResult := mapSet b.mapResult id (GoVal.arr [resp]) } := by
  unfold processResp; simp [h1, h2, h]

theorem processResp_mult_arr (r : Runner) (b : AsyncTask) (id : String)
    (resp : GoVal) (old : List GoVal) (h1 : r.multiple = true)
    (h2 : resp.isNil = false) (h : b.mapResult id = some (GoVal.arr old)) :
    processResp r b id resp =
      { b with mapResult := mapSet b.mapResult id (GoVal.arr (old ++ [resp])) } := by
  unfold processResp; simp [h1, h2, h]

theorem processResp_mult_mismatch (r : Runner) (b : AsyncTask) (id : String)
    (resp v : GoVal) (h1 : r.multiple = true) (h2 : resp.isNil = false)
    (h : b.mapResult id = some v) (hv1 : v.isNil = false)
    (hv2 : ∀ xs, v ≠ GoVal.arr xs) :
    processResp r b id resp = { b with err := some appendErrMsg } := by
  unfold processResp
  simp only [h2, Bool.false_eq_true, if_false, h1, if_true, h, Option.getD_some]
  cases v with
  | nil => simp [GoVal.isNil] at hv1
  | str s => rfl
  | int n => rfl
  | bool c => rfl
  | arr xs => exact absurd rfl (hv2 xs)

theorem processResp_cancelled (r : Runner) (b : AsyncTask) (id : String)
    (resp : GoVal) : (processResp r b id resp).cancelled = b.cancelled := by
  unfold processResp
  split
  · rfl
  split
  · split <;> rfl
  · rfl

theorem processResp_struct (r : Runner) (b : AsyncTask) (id : String)
    (resp : GoVal) : SameStruct b (processResp r b id resp) := by
  unfold processResp
  split
  · exact SameStruct.refl b
  split
  · split <;> exact ⟨rfl, rfl, rfl⟩
  · exact ⟨rfl, rfl, rfl⟩

theorem doRun_ok_deliver (r : Runner) (s : Sched) (b : AsyncTask) (v : GoVal)
    (ho : r.outcome = FnOutcome.ok v)
    (h : b.cancelled = false ∨ s.takeCtxDone = false) :
    r.doRun s b = some (processResp r b r.id v) := by
  unfold Runner.doRun; rw [ho]
  rcases h with h | h <;> simp [h]

theorem doRun_ok_skip (r : Runner) (s : Sched) (b : AsyncTask) (v : GoVal)
    (ho : r.outcome = FnOutcome.ok v) (hc : b.cancelled = true)
    (ht : s.takeCtxDone = true) : r.doRun s b = some b := by
  unfold Runner.doRun; rw [ho]; simp [hc, ht]

theorem doRun_struct (r : Runner) (s : Sched) (b b' : AsyncTask)
    (h : r.doRun s b = some b') : SameStruct b b' := by
  rcases ho : r.outcome with v | e | ⟨m, stk⟩ | _ <;>
    simp only [Runner.doRun, ho] at h
  · split at h
    · exact Option.some.inj h ▸ SameStruct.refl b
    · exact Option.some.inj h ▸ processResp_struct r b r.id v
  · split at h
    · exact Option.some.inj h ▸ SameStruct.refl b
    · exact Option.some.inj h ▸ ⟨by simp, by simp, by simp⟩
  · split at h
    · exact Option.some.inj h ▸ ⟨by simp, by simp, by simp⟩
    · split at h
      · exact Option.some.inj h ▸ ⟨by simp, by simp, by simp⟩
      · exact absurd h (by simp)
  · split at h
    · split at h
      · exact Option.some.inj h ▸ SameStruct.refl b
      · exact Option.some.inj h ▸ ⟨by simp, by simp, by simp⟩
    · split at h
      · exact Option.some.inj h ▸ SameStruct.refl b
      · exact absurd h (by simp)

theorem doRun_fail (r : Runner) (s : Sched) (b : AsyncTask) (E : String)
    (hf : failMsg r = some E) (hc : b.cancelled = false)
    (hco : b.cancelOnError = true) :
    ∃ b', r.doRun s b = some b' ∧ b'.err = some E ∧ b'.cancelled = true ∧
      b'.mapResult = b.mapResult ∧ SameStruct b b' := by
  rcases ho : r.outcome with v | e | ⟨m, stk⟩ | _ <;>
    simp only [failMsg, ho] at hf <;>
    simp only [Runner.doRun, ho]
  · exact absurd hf (by simp)
  · have hE := Option.some.inj hf
    subst hE
    refine ⟨processErr b e, by simp [hc], by simp, by simp [hc, hco], by simp,
      by simp, by simp, by simp⟩
  · have hE := Option.some.inj hf
    subst hE
    refine ⟨recovery b m stk,
      if_pos (show (recovery b m stk).cancelled = true by simp [hc, hco]),
      by simp, by simp [hc, hco], by simp, by simp, by simp, by simp⟩
  · by_cases htm : 0 < r.timeout
    · rw [if_pos htm] at hf
      have hE := Option.some.inj hf
      subst hE
      refine ⟨processErr b (timeLimitMsg r.id), ?_, by simp, by simp [hc, hco],
        by simp, by simp, by simp, by simp⟩
      rw [if_pos htm]
      simp [hc]
    · rw [if_neg htm] at hf
      exact absurd hf (by simp)

theorem doRun_isSome_of_cannotHang (r : Runner) (s : Sched) (b : AsyncTask)
    (h : cannotHang b.cancelOnError r = true) :
    ∃ b', r.doRun s b = some b' := by
  rcases ho : r.outcome with v | e | ⟨m, stk⟩ | _ <;>
    simp only [cannotHang, ho] at h <;>
    simp only [Runner.doRun, ho]
  · split <;> exact ⟨_, rfl⟩
  · split <;> exact ⟨_, rfl⟩
  · by_cases hcc : (recovery b m stk).cancelled = true
    · exact ⟨recovery b m stk, if_pos hcc⟩
    · rcases Bool.or_eq_true_iff.mp h with hco | ht
      · exact absurd (by rw [recovery_cancelled, hco, Bool.or_true]) hcc
      · exact ⟨_, by rw [if_neg hcc, if_pos (of_decide_eq_true ht)]⟩
  · rw [if_pos (of_decide_eq_true h)]
    split <;> exact ⟨_, rfl⟩

theorem doRun_ok_write (r : Runner) (s : Sched) (b : AsyncTask) (v : GoVal)
    (ho : r.outcome = FnOutcome.ok v) (hc : b.cancelled = false)
    (hm : b.mapResult r.id = none) :
    ∃ b', r.doRun s b = some b' ∧ b'.err = b.err ∧ b'.cancelled = false ∧
      SameStruct b b' ∧ b'.mapResult r.id = okWrite r v ∧
      ∀ k, k ≠ r.id → b'.mapResult k = b.mapResult k := by
  refine ⟨processResp r b r.id v, doRun_ok_deliver r s b v ho (Or.inl hc), ?_⟩
  by_cases hv : v.isNil = true
  · rw [processResp_of_isNil r b r.id v hv]
    exact ⟨rfl, hc, SameStruct.refl b, by simp [okWrite, hv, hm],
      fun k _ => rfl⟩
  · rw [Bool.not_eq_true] at hv
    by_cases hmu : r.multiple = true
    · rw [processResp_mult_none r b r.id v hmu hv hm]
      refine ⟨rfl, hc, ⟨rfl, rfl, rfl⟩, ?_, ?_⟩
      · simp [okWrite, hv, hmu]
      · intro k hk
        exact mapSet_other b.mapResult r.id k (GoVal.arr [v]) hk
    · rw [Bool.not_eq_true] at hmu
      rw [processResp_single r b r.id v hmu hv]
      refine ⟨rfl, hc, ⟨rfl, rfl, rfl⟩, ?_, ?_⟩
      · simp [okWrite, hv, hmu]
      · intro k hk
        exact mapSet_other b.mapResult r.id k v hk

theorem doRun_ok_any (r : Runner) (s : Sched) (b : AsyncTask) (v : GoVal)
    (ho : r.outcome = FnOutcome.ok v)
    (hshape : b.mapResult r.id = none ∨ ∃ ws, b.mapResult r.id = some (GoVal.arr ws)) :
    ∃ b', r.doRun s b = some b' ∧ b'.err = b.err ∧ b'.cancelled = b.cancelled ∧
      SameStruct b b' ∧ ∀ k, k ≠ r.id → b'.mapResult k = b.mapResult k := by
  by_cases hsk : (b.cancelled && s.takeCtxDone) = true
  · refine ⟨b, ?_, rfl, rfl, SameStruct.refl b, fun k _ => rfl⟩
    unfold Runner.doRun
    rw [ho]
    simp [hsk]
  · have hd : r.doRun s b = some (processResp r b r.id v) := by
      unfold Runner.doRun
      rw [ho]
      simp [hsk]
    refine ⟨processResp r b r.id v, hd, ?_, processResp_cancelled r b r.id v,
      processResp_struct r b r.id v, ?_⟩
    · by_cases hv : v.isNil = true
      · rw [processResp_of_isNil r b r.id v hv]
      · rw [Bool.not_eq_true] at hv
        by_cases hmu : r.multiple = true
        · rcases hshape with hm | ⟨ws, hm⟩
          · rw [processResp_mult_none r b r.id v hmu hv hm]
          · rw [processResp_mult_arr r b r.id v ws hmu hv hm]
        · rw [Bool.not_eq_true] at hmu
          rw [processResp_single r b r.id v hmu hv]
    · intro k hk
      by_cases hv : v.isNil = true
      · rw [processResp_of_isNil r b r.id v hv]
      · rw [Bool.not_eq_true] at hv
        by_cases hmu : r.multiple = true
        · rcases hshape with hm | ⟨ws, hm⟩
          · rw [processResp_mult_none r b r.id v hmu hv hm]
            exact mapSet_other b.mapResult r.id k (GoVal.arr [v]) hk
          · rw [processResp_mult_arr r b r.id v ws hmu hv hm]
            exact mapSet_other b.mapResult r.id k (GoVal.arr (ws ++ [v])) hk
        · rw [Bool.not_eq_true] at hmu
          rw [processResp_single r b r.id v hmu hv]
          exact mapSet_other b.mapResult r.id k v hk

/-- Length of the slice stored under a key (0 when absent or not a slice). -/
def arrLenAt (b : AsyncTask) (k : String) : Nat :=
  match b.mapResult k with
  | some (GoVal.arr ws) => ws.length
  | _ => 0

theorem doRun_mult_grow (r : Runner) (s : Sched) (b : AsyncTask) (v : GoVal)
    (ho : r.outcome = FnOutcome.ok v) (hv : v.isNil = false)
    (hmu : r.multiple = true) (hc : b.cancelled = false)
    (hshape : b.mapResult r.id = none ∨ ∃ ws, b.mapResult r.id = some (GoVal.arr ws)) :
    ∃ b', r.doRun s b = some b' ∧ b'.err = b.err ∧ b'.cancelled = false ∧
      SameStruct b b' ∧
      (∃ ws', b'.mapResult r.id = some (GoVal.arr ws') ∧
        ws'.length = arrLenAt b r.id + 1) ∧
      ∀ k, k ≠ r.id → b'.mapResult k = b.mapResult k := by
  refine ⟨processResp r b r.id v, doRun_ok_deliver r s b v ho (Or.inl hc), ?_⟩
  rcases hshape with hm | ⟨ws, hm⟩
  · rw [processResp_mult_none r b r.id v hmu hv hm]
    refine ⟨rfl, hc, ⟨rfl, rfl, rfl⟩, ⟨[v], by simp, ?_⟩, ?_⟩
    · unfold arrLenAt
      rw [hm]
      simp
    · intro k hk
      exact mapSet_other b.mapResult r.id k (GoVal.arr [v]) hk
  · rw [processResp_mult_arr r b r.id v ws hmu hv hm]
    refine ⟨rfl, hc, ⟨rfl, rfl, rfl⟩, ⟨ws ++ [v], by simp, ?_⟩, ?_⟩
    · unfold arrLenAt
      rw [hm]
      simp
    · intro k hk
      exact mapSet_other b.mapResult r.id k (GoVal.arr (ws ++ [v])) hk

@[simp] theorem unitIds_nil : unitIds [] = [] := rfl

@[simp] theorem unitIds_cons (p : Runner × Sched) (l : List (Runner × Sched)) :
    unitIds (p :: l) = p.1.id :: unitIds l := rfl

@[simp] theorem unitIds_append (l1 l2 : List (Runner × Sched)) :
    unitIds (l1 ++ l2) = unitIds l1 ++ unitIds l2 := by
  simp [unitIds]

theorem doRun_ok_cancelled (r : Runner) (s : Sched) (b : AsyncTask) (v : GoVal)
    (ho : r.outcome = FnOutcome.ok v) :
    ∃ b', r.doRun s b = some b' ∧ b'.cancelled = b.cancelled ∧ SameStruct b b' := by
  by_cases hsk : (b.cancelled && s.takeCtxDone) = true
  · refine ⟨b, ?_, rfl, SameStruct.refl b⟩
    unfold Runner.doRun
    rw [ho]
    simp [hsk]
  · have hd : r.doRun s b = some (processResp r b r.id v) := by
      unfold Runner.doRun
      rw [ho]
      simp [hsk]
    exact ⟨processResp r b r.id v, hd, processResp_cancelled r b r.id v,
      processResp_struct r b r.id v⟩

theorem runPend_allOk (pend : List (Runner × Sched)) :
    ∀ (b : AsyncTask) (tr : List String),
    b.cancelled = false → b.err = none →
    (∀ p ∈ pend, ∃ v, p.1.outcome = FnOutcome.ok v) →
    (unitIds pend).Nodup →
    (∀ p ∈ pend, b.mapResult p.1.id = none) →
    ∃ b' tr', runPend b pend tr = some (b', tr') ∧ b'.err = none ∧
      b'.cancelled = false ∧ SameStruct b b' ∧
      (∀ p ∈ pend, ∀ v, p.1.outcome = FnOutcome.ok v →
        b'.mapResult p.1.id = okWrite p.1 v) ∧
      (∀ k, (∀ p ∈ pend, p.1.id ≠ k) → b'.mapResult k = b.mapResult k) := by
  induction pend with
  | nil =>
      intro b tr hc he _ _ _
      exact ⟨b, tr, rfl, he, hc, SameStruct.refl b, by simp, fun k _ => rfl⟩
  | cons p rest ih =>
      intro b tr hc he hok hnd hmap
      obtain ⟨r, s⟩ := p
      obtain ⟨v, hv⟩ := hok (r, s) (List.mem_cons_self _ _)
      have hmr : b.mapResult r.id = none := hmap (r, s) (List.mem_cons_self _ _)
      obtain ⟨b1, hd, he1, hc1, hst1, hw1, hfr1⟩ :=
        doRun_ok_write r s b v hv hc hmr
      rw [unitIds_cons, List.nodup_cons] at hnd
      obtain ⟨hnotin, hnd'⟩ := hnd
      obtain ⟨b', tr', hrp, he', hc', hst', hw', hfr'⟩ :=
        ih b1 (tr ++ [r.id]) hc1 (he1.trans he) (fun q hq => hok q (List.mem_cons_of_mem _ hq)) hnd'
          (fun q hq => by
            have hne : q.1.id ≠ r.id := by
              intro hcontra
              exact hnotin (hcontra ▸ (List.mem_map.mpr ⟨q, hq, rfl⟩))
            rw [hfr1 q.1.id hne]
            exact hmap q (List.mem_cons_of_mem _ hq))
      refine ⟨b', tr', ?_, he', hc', hst1.trans hst', ?_, ?_⟩
      · simp only [runPend, hd]
        exact hrp
      · intro q hq v' hv'
        rcases List.mem_cons.mp hq with rfl | hq'
        · have hvv : v = v' := by
            rw [hv] at hv'
            exact FnOutcome.ok.inj hv'
          subst hvv
          have : b'.mapResult r.id = b1.mapResult r.id := by
            apply hfr'
            intro q' hq'
            intro hcontra
            exact hnotin (hcontra ▸ (List.mem_map.mpr ⟨q', hq', rfl⟩))
          rw [this, hw1]
        · exact hw' q hq' v' hv'
      · intro k hk
        have h1 : b'.mapResult k = b1.mapResult k := by
          apply hfr'
          intro q hq
          exact hk q (List.mem_cons_of_mem _ hq)
        have h2 : b1.mapResult k = b.mapResult k := by
          apply hfr1
          exact fun hcontra => hk (r, s) (List.mem_cons_self _ _) hcontra.symm
        rw [h1, h2]

theorem runPend_ok_any (pend : List (Runner × Sched)) :
    ∀ (b : AsyncTask) (tr : List String),
    (∀ p ∈ pend, ∃ v, p.1.outcome = FnOutcome.ok v) →
    (∀ p ∈ pend, b.mapResult p.1.id = none ∨
      ∃ ws, b.mapResult p.1.id = some (GoVal.arr ws)) →
    (unitIds pend).Nodup →
    ∃ b' tr', runPend b pend tr = some (b', tr') ∧ b'.err = b.err ∧
      b'.cancelled = b.cancelled ∧ SameStruct b b' ∧
      (∀ k, (∀ p ∈ pend, p.1.id ≠ k) → b'.mapResult k = b.mapResult k) := by
  induction pend with
  | nil =>
      intro b tr _ _ _
      exact ⟨b, tr, rfl, rfl, rfl, SameStruct.refl b, fun k _ => rfl⟩
  | cons p rest ih =>
      intro b tr hok hshape hnd
      obtain ⟨r, s⟩ := p
      obtain ⟨v, hv⟩ := hok (r, s) (List.mem_cons_self _ _)
      obtain ⟨b1, hd, he1, hc1, hst1, hfr1⟩ :=
        doRun_ok_any r s b v hv (hshape (r, s) (List.mem_cons_self _ _))
      rw [unitIds_cons, List.nodup_cons] at hnd
      obtain ⟨hnotin, hnd'⟩ := hnd
      have hne : ∀ q ∈ rest, q.1.id ≠ r.id := by
        intro q hq hcontra
        exact hnotin (hcontra ▸ (List.mem_map.mpr ⟨q, hq, rfl⟩))
      obtain ⟨b', tr', hrp, he', hc', hst', hfr'⟩ :=
        ih b1 (tr ++ [r.id]) (fun q hq => hok q (List.mem_cons_of_mem _ hq))
          (fun q hq => by
            rw [hfr1 q.1.id (hne q hq)]
            exact hshape q (List.mem_cons_of_mem _ hq)) hnd'
      refine ⟨b', tr', ?_, he'.trans he1, hc'.trans hc1, hst1.trans hst', ?_⟩
      · simp only [runPend, hd]
        exact hrp
      · intro k hk
        have h1 : b'.mapResult k = b1.mapResult k := by
          apply hfr'
          intro q hq
          exact hk q (List.mem_cons_of_mem _ hq)
        have h2 : b1.mapResult k = b.mapResult k := by
          apply hfr1
          exact fun hcontra => hk (r, s) (List.mem_cons_self _ _) hcontra.symm
        rw [h1, h2]

theorem runPend_mult (pend : List (Runner × Sched)) :
    ∀ (b : AsyncTask) (tr : List String) (k : String),
    b.cancelled = false → b.err = none →
    (∀ p ∈ pend, p.1.id = k ∧ p.1.multiple = true ∧
      ∃ v, p.1.outcome = FnOutcome.ok v ∧ v.isNil = false) →
    (b.mapResult k = none ∨ ∃ ws, b.mapResult k = some (GoVal.arr ws)) →
    ∃ b' tr', runPend b pend tr = some (b', tr') ∧ b'.err = none ∧
      b'.cancelled = false ∧ SameStruct b b' ∧
      (b'.mapResult k = none ∨ ∃ ws, b'.mapResult k = some (GoVal.arr ws)) ∧
      arrLenAt b' k = arrLenAt b k + pend.length ∧
      (∀ q, q ≠ k → b'.mapResult q = b.mapResult q) := by
  induction pend with
  | nil =>
      intro b tr k hc he _ hshape
      exact ⟨b, tr, rfl, he, hc, SameStruct.refl b, hshape, by simp,
        fun q _ => rfl⟩
  | cons p rest ih =>
      intro b tr k hc he hall hshape
      obtain ⟨r, s⟩ := p
      obtain ⟨hid, hmu, v, hv, hvnil⟩ := hall (r, s) (List.mem_cons_self _ _)
      subst hid
      obtain ⟨b1, hd, he1, hc1, hst1, ⟨ws', hws', hlen'⟩, hfr1⟩ :=
        doRun_mult_grow r s b v hv hvnil hmu hc hshape
      obtain ⟨b', tr', hrp, he', hc', hst', hshape', hlen, hfr'⟩ :=
        ih b1 (tr ++ [r.id]) r.id hc1 (he1.trans he)
          (fun q hq => hall q (List.mem_cons_of_mem _ hq))
          (Or.inr ⟨ws', hws'⟩)
      refine ⟨b', tr', ?_, he', hc', hst1.trans hst', hshape', ?_, ?_⟩
      · simp only [runPend, hd]
        exact hrp
      · have hl1 : arrLenAt b1 r.id = arrLenAt b r.id + 1 := by
          unfold arrLenAt
          rw [hws']
          exact hlen'
        rw [hlen, hl1]
        simp only [List.length_cons]
        omega
      · intro q hq
        rw [hfr' q hq, hfr1 q hq]

theorem runPend_light (pend : List (Runner × Sched)) :
    ∀ (b : AsyncTask) (tr : List String),
    (∀ p ∈ pend, cannotHang b.cancelOnError p.1 = true) →
    ∃ b', runPend b pend tr = some (b', tr ++ unitIds pend) ∧ SameStruct b b' := by
  induction pend with
  | nil =>
      intro b tr _
      exact ⟨b, by simp [runPend], SameStruct.refl b⟩
  | cons p rest ih =>
      intro b tr hnh
      obtain ⟨r, s⟩ := p
      obtain ⟨b1, hd⟩ :=
        doRun_isSome_of_cannotHang r s b (hnh (r, s) (List.mem_cons_self _ _))
      have hst1 : SameStruct b b1 := doRun_struct r s b b1 hd
      obtain ⟨b', hrp, hst'⟩ :=
        ih b1 (tr ++ [r.id]) (fun q hq => by
          rw [hst1.1]
          exact hnh q (List.mem_cons_of_mem _ hq))
      refine ⟨b', ?_, hst1.trans hst'⟩
      simp only [runPend, hd]
      rw [hrp]
      simp

theorem runPend_ok_light (pend : List (Runner × Sched)) :
    ∀ (b : AsyncTask) (tr : List String),
    (∀ p ∈ pend, ∃ v, p.1.outcome = FnOutcome.ok v) →
    ∃ b', runPend b pend tr = some (b', tr ++ unitIds pend) ∧
      b'.cancelled = b.cancelled ∧ SameStruct b b' := by
  induction pend with
  | nil =>
      intro b tr _
      exact ⟨b, by simp [runPend], rfl, SameStruct.refl b⟩
  | cons p rest ih =>
      intro b tr hok
      obtain ⟨r, s⟩ := p
      obtain ⟨v, hv⟩ := hok (r, s) (List.mem_cons_self _ _)
      obtain ⟨b1, hd, hc1, hst1⟩ := doRun_ok_cancelled r s b v hv
      obtain ⟨b', hrp, hc', hst'⟩ :=
        ih b1 (tr ++ [r.id]) (fun q hq => hok q (List.mem_cons_of_mem _ hq))
      refine ⟨b', ?_, hc'.trans hc1, hst1.trans hst'⟩
      simp only [runPend, hd]
      rw [hrp]
      simp

@[simp] theorem markSeen_same (seen : String → Bool) (id : String) :
    markSeen seen id id = true := by
  unfold markSeen; simp

theorem markSeen_other (seen : String → Bool) (id q : String) (h : q ≠ id) :
    markSeen seen id q = seen q := by
  unfold markSeen; simp [h]

theorem admitLoop_allOk (rs : List (Runner × Sched)) :
    ∀ (pend : List (Runner × Sched)) (b : AsyncTask) (seen : String → Bool)
      (tr : List String),
    b.cancelled = false → b.err = none →
    (∀ p ∈ pend ++ rs, ∃ v, p.1.outcome = FnOutcome.ok v) →
    (unitIds (pend ++ rs)).Nodup →
    (∀ p ∈ rs, seen p.1.id = false) →
    (∀ p ∈ pend ++ rs, b.mapResult p.1.id = none) →
    ∃ b' tr', admitLoop b seen pend tr rs = RunResult.done none b' [] tr' ∧
      b'.err = none ∧ b'.cancelled = false ∧ SameStruct b b' ∧
      (∀ p ∈ pend ++ rs, ∀ v, p.1.outcome = FnOutcome.ok v →
        b'.mapResult p.1.id = okWrite p.1 v) ∧
      (∀ k, (∀ p ∈ pend ++ rs, p.1.id ≠ k) → b'.mapResult k = b.mapResult k) := by
  induction rs with
  | nil =>
      intro pend b seen tr hc he hok hnd hseen hmap
      rw [List.append_nil] at hok hnd hmap
      obtain ⟨b', tr', hrp, he', hc', hst', hw', hfr'⟩ :=
        runPend_allOk pend b tr hc he hok hnd hmap
      refine ⟨b', tr', ?_, he', hc', hst', ?_, ?_⟩
      · simp only [admitLoop, hrp, he']
      · intro p hp
        rw [List.append_nil] at hp
        exact hw' p hp
      · intro k hk
        apply hfr'
        intro p hp
        exact hk p (by rw [List.append_nil]; exact hp)
  | cons hd rest ih =>
      intro pend b seen tr hc he hok hnd hseen hmap
      obtain ⟨r, s⟩ := hd
      obtain ⟨v, hv⟩ :=
        hok (r, s) (List.mem_append_right _ (List.mem_cons_self _ _))
      have hsc : seen r.id = false := hseen (r, s) (List.mem_cons_self _ _)
      rw [unitIds_append, unitIds_cons] at hnd
      obtain ⟨hrnot, hndPR⟩ := List.nodup_cons.mp (List.nodup_middle.mp hnd)
      have hrnotP : r.id ∉ unitIds pend := fun hx => hrnot (List.mem_append_left _ hx)
      have hrnotR : r.id ∉ unitIds rest := fun hx => hrnot (List.mem_append_right _ hx)
      have hndP : (unitIds pend).Nodup := (List.nodup_append.mp hndPR).1
      have hndR : (unitIds rest).Nodup := (List.nodup_append.mp hndPR).2.1
      have hdisjPR : (unitIds pend).Disjoint (unitIds rest) :=
        (List.nodup_append.mp hndPR).2.2
      have hPneR : ∀ q ∈ pend, q.1.id ≠ r.id := by
        intro q hq hcontra
        exact hrnotP (hcontra ▸ List.mem_map.mpr ⟨q, hq, rfl⟩)
      have hRneR : ∀ q ∈ rest, q.1.id ≠ r.id := by
        intro q hq hcontra
        exact hrnotR (hcontra ▸ List.mem_map.mpr ⟨q, hq, rfl⟩)
      have hPRdisj : ∀ q ∈ pend, ∀ q' ∈ rest, q.1.id ≠ q'.1.id := by
        intro q hq q' hq' hcontra
        exact hdisjPR (List.mem_map.mpr ⟨q, hq, rfl⟩)
          (hcontra ▸ List.mem_map.mpr ⟨q', hq', rfl⟩)
      have hseen' : ∀ q ∈ rest, markSeen seen r.id q.1.id = false := by
        intro q hq
        rw [markSeen_other seen r.id q.1.id (hRneR q hq)]
        exact hseen q (List.mem_cons_of_mem _ hq)
      have launch : ∀ (pend0 : List (Runner × Sched)) (b0 : AsyncTask)
          (tr0 : List String),
          b0.cancelled = false → b0.err = none →
          (∀ p ∈ pend0 ++ (r, s) :: rest, b0.mapResult p.1.id = none) →
          (unitIds (pend0 ++ (r, s) :: rest)).Nodup →
          (∀ p ∈ pend0 ++ (r, s) :: rest, ∃ w, p.1.outcome = FnOutcome.ok w) →
          ∃ b' tr',
            (if s.eager = true then
                match r.doRun s b0 with
                | none => RunResult.hangs
                | some b1 => admitLoop b1 (markSeen seen r.id) pend0 (tr0 ++ [r.id]) rest
              else admitLoop b0 (markSeen seen r.id) (pend0 ++ [(r, s)]) tr0 rest) =
              RunResult.done none b' [] tr' ∧
            b'.err = none ∧ b'.cancelled = false ∧ SameStruct b0 b' ∧
            (∀ p ∈ pend0 ++ (r, s) :: rest, ∀ w, p.1.outcome = FnOutcome.ok w →
              b'.mapResult p.1.id = okWrite p.1 w) ∧
            (∀ k, (∀ p ∈ pend0 ++ (r, s) :: rest, p.1.id ≠ k) →
              b'.mapResult k = b0.mapResult k) := by
        intro pend0 b0 tr0 hc0 he0 hmap0 hnd0 hok0
        rw [unitIds_append, unitIds_cons] at hnd0
        obtain ⟨hrnot0, hndPR0⟩ := List.nodup_cons.mp (List.nodup_middle.mp hnd0)
        have hrnotP0 : r.id ∉ unitIds pend0 :=
          fun hx => hrnot0 (List.mem_append_left _ hx)
        have hrnotR0 : r.id ∉ unitIds rest :=
          fun hx => hrnot0 (List.mem_append_right _ hx)
        have hPneR0 : ∀ q ∈ pend0, q.1.id ≠ r.id := by
          intro q hq hcontra
          exact hrnotP0 (hcontra ▸ List.mem_map.mpr ⟨q, hq, rfl⟩)
        have hPRdisj0 : ∀ q ∈ pend0, ∀ q' ∈ rest, q.1.id ≠ q'.1.id := by
          intro q hq q' hq' hcontra
          exact (List.nodup_append.mp hndPR0).2.2 (List.mem_map.mpr ⟨q, hq, rfl⟩)
            (hcontra ▸ List.mem_map.mpr ⟨q', hq', rfl⟩)
        by_cases hea : s.eager = true
        · rw [if_pos hea]
          obtain ⟨b1, hd1, he1, hc1, hst1, hw1, hfr1⟩ :=
            doRun_ok_write r s b0 v hv hc0
              (hmap0 (r, s) (List.mem_append_right _ (List.mem_cons_self _ _)))
          obtain ⟨b', tr', hloop, he', hc', hst', hw', hfr'⟩ :=
            ih pend0 b1 (markSeen seen r.id) (tr0 ++ [r.id]) hc1 (he1.trans he0)
              (fun q hq => by
                rcases List.mem_append.mp hq with hq' | hq'
                · exact hok0 q (List.mem_append_left _ hq')
                · exact hok0 q
                    (List.mem_append_right _ (List.mem_cons_of_mem _ hq')))
              (by rw [unitIds_append]; exact hndPR0)
              hseen'
              (fun q hq => by
                have hne : q.1.id ≠ r.id := by
                  rcases List.mem_append.mp hq with hq' | hq'
                  · exact hPneR0 q hq'
                  · exact hRneR q hq'
                rw [hfr1 q.1.id hne]
                rcases List.mem_append.mp hq with hq' | hq'
                · exact hmap0 q (List.mem_append_left _ hq')
                · exact hmap0 q
                    (List.mem_append_right _ (List.mem_cons_of_mem _ hq')))
          refine ⟨b', tr', ?_, he', hc', hst1.trans hst', ?_, ?_⟩
          · simp only [hd1]
            exact hloop
          · intro p hp w hw
            rcases List.mem_append.mp hp with hp' | hp'
            · exact hw' p (List.mem_append_left _ hp') w hw
            · rcases List.mem_cons.mp hp' with rfl | hp''
              · have hvv : v = w := by
                  rw [hv] at hw
                  exact FnOutcome.ok.inj hw
                subst hvv
                have hfr : b'.mapResult r.id = b1.mapResult r.id := by
                  apply hfr'
                  intro q hq
                  rcases List.mem_append.mp hq with hq' | hq'
                  · exact hPneR0 q hq'
                  · exact hRneR q hq'
                rw [hfr, hw1]
              · exact hw' p (List.mem_append_right _ hp'') w hw
          · intro k hk
            have h1 : b'.mapResult k = b1.mapResult k := by
              apply hfr'
              intro q hq
              rcases List.mem_append.mp hq with hq' | hq'
              · exact hk q (List.mem_append_left _ hq')
              · exact hk q (List.mem_append_right _ (List.mem_cons_of_mem _ hq'))
            have h2 : b1.mapResult k = b0.mapResult k := by
              apply hfr1
              exact fun hcontra => hk (r, s)
                (List.mem_append_right _ (List.mem_cons_self _ _)) hcontra.symm
            rw [h1, h2]
        · rw [if_neg hea]
          have hsplit : (pend0 ++ [(r, s)]) ++ rest = pend0 ++ (r, s) :: rest := by
            rw [List.append_assoc, List.singleton_append]
          obtain ⟨b', tr', hloop, he', hc', hst', hw', hfr'⟩ :=
            ih (pend0 ++ [(r, s)]) b0 (markSeen seen r.id) tr0 hc0 he0
              (by rw [hsplit]; exact hok0)
              (by rw [hsplit, unitIds_append, unitIds_cons]; exact hnd0)
              hseen'
              (by rw [hsplit]; exact hmap0)
          refine ⟨b', tr', hloop, he', hc', hst', ?_, ?_⟩
          · intro p hp w hw
            exact hw' p (by rw [hsplit]; exact hp) w hw
          · intro k hk
            apply hfr'
            intro p hp
            exact hk p (by rw [← hsplit]; exact hp)
      simp only [admitLoop, hsc, Bool.false_and, Bool.false_eq_true, if_false]
      by_cases hp : 0 < b.runnerPoolSize
      · rw [if_pos hp, if_neg (by simp [hc])]
        by_cases hfull : b.runnerPoolSize ≤ (pend.length : Int)
        · rw [if_pos hfull]
          obtain ⟨b1, tr1, hrp, he1, hc1, hst1, hw1, hfr1⟩ :=
            runPend_allOk pend b tr hc he
              (fun q hq => hok q (List.mem_append_left _ hq)) hndP
              (fun q hq => hmap q (List.mem_append_left _ hq))
          obtain ⟨b', tr', hloop, he', hc', hst', hw', hfr'⟩ :=
            launch [] b1 tr1 hc1 he1
              (fun q hq => by
                rw [List.nil_append] at hq
                have hne : ∀ q' ∈ pend, q'.1.id ≠ q.1.id := by
                  intro q' hq'
                  rcases List.mem_cons.mp hq with rfl | hq''
                  · exact hPneR q' hq'
                  · exact hPRdisj q' hq' q hq''
                rw [hfr1 q.1.id hne]
                exact hmap q (List.mem_append_right _ hq))
              (by rw [List.nil_append, unitIds_cons]
                  exact List.nodup_cons.mpr ⟨hrnotR, hndR⟩)
              (fun q hq => by
                rw [List.nil_append] at hq
                exact hok q (List.mem_append_right _ hq))
          refine ⟨b', tr', ?_, he', hc', hst1.trans hst', ?_, ?_⟩
          · simp only [hrp]
            exact hloop
          · intro p hp w hw
            rcases List.mem_append.mp hp with hp' | hp'
            · have h1 : b'.mapResult p.1.id = b1.mapResult p.1.id := by
                apply hfr'
                intro q hq
                rw [List.nil_append] at hq
                rcases List.mem_cons.mp hq with rfl | hq'
                · exact (hPneR p hp').symm
                · exact (hPRdisj p hp' q hq').symm
              rw [h1]
              exact hw1 p hp' w hw
            · exact hw' p (by rw [List.nil_append]; exact hp') w hw
          · intro k hk
            have h1 : b'.mapResult k = b1.mapResult k := by
              apply hfr'
              intro q hq
              rw [List.nil_append] at hq
              exact hk q (List.mem_append_right _ hq)
            have h2 : b1.mapResult k = b.mapResult k := by
              apply hfr1
              intro q hq
              exact hk q (List.mem_append_left _ hq)
            rw [h1, h2]
        · rw [if_neg hfull]
          obtain ⟨b', tr', hloop, he', hc', hst', hw', hfr'⟩ :=
            launch pend b tr hc he hmap
              (by rw [unitIds_append, unitIds_cons]; exact hnd) hok
          exact ⟨b', tr', hloop, he', hc', hst', hw', hfr'⟩
      · rw [if_neg hp]
        obtain ⟨b', tr', hloop, he', hc', hst', hw', hfr'⟩ :=
          launch pend b tr hc he hmap
            (by rw [unitIds_append, unitIds_cons]; exact hnd) hok
        exact ⟨b', tr', hloop, he', hc', hst', hw', hfr'⟩

theorem admitLoop_ok_any (rs : List (Runner × Sched)) :
    ∀ (pend : List (Runner × Sched)) (b : AsyncTask) (seen : String → Bool)
      (tr : List String),
    (∀ p ∈ pend ++ rs, ∃ v, p.1.outcome = FnOutcome.ok v) →
    (unitIds (pend ++ rs)).Nodup →
    (∀ p ∈ rs, seen p.1.id = false) →
    (∀ p ∈ pend ++ rs, b.mapResult p.1.id = none ∨
      ∃ ws, b.mapResult p.1.id = some (GoVal.arr ws)) →
    ∃ b' tr', admitLoop b seen pend tr rs = RunResult.done b.err b' [] tr' ∧
      b'.err = b.err ∧ b'.cancelled = b.cancelled ∧ SameStruct b b' ∧
      (∀ k, (∀ p ∈ pend ++ rs, p.1.id ≠ k) → b'.mapResult k = b.mapResult k) := by
  induction rs with
  | nil =>
      intro pend b seen tr hok hnd hseen hshape
      rw [List.append_nil] at hok hnd hshape
      obtain ⟨b', tr', hrp, he', hc', hst', hfr'⟩ :=
        runPend_ok_any pend b tr hok hshape hnd
      refine ⟨b', tr', ?_, he', hc', hst', ?_⟩
      · simp only [admitLoop, hrp, he']
      · intro k hk
        apply hfr'
        intro p hp
        exact hk p (by rw [List.append_nil]; exact hp)
  | cons hd rest ih =>
      intro pend b seen tr hok hnd hseen hshape
      obtain ⟨r, s⟩ := hd
      obtain ⟨v, hv⟩ :=
        hok (r, s) (List.mem_append_right _ (List.mem_cons_self _ _))
      have hsc : seen r.id = false := hseen (r, s) (List.mem_cons_self _ _)
      rw [unitIds_append, unitIds_cons] at hnd
      obtain ⟨hrnot, hndPR⟩ := List.nodup_cons.mp (List.nodup_middle.mp hnd)
      have hrnotP : r.id ∉ unitIds pend := fun hx => hrnot (List.mem_append_left _ hx)
      have hrnotR : r.id ∉ unitIds rest := fun hx => hrnot (List.mem_append_right _ hx)
      have hndP : (unitIds pend).Nodup := (List.nodup_append.mp hndPR).1
      have hndR : (unitIds rest).Nodup := (List.nodup_append.mp hndPR).2.1
      have hdisjPR : (unitIds pend).Disjoint (unitIds rest) :=
        (List.nodup_append.mp hndPR).2.2
      have hPneR : ∀ q ∈ pend, q.1.id ≠ r.id := by
        intro q hq hcontra
        exact hrnotP (hcontra ▸ List.mem_map.mpr ⟨q, hq, rfl⟩)
      have hRneR : ∀ q ∈ rest, q.1.id ≠ r.id := by
        intro q hq hcontra
        exact hrnotR (hcontra ▸ List.mem_map.mpr ⟨q, hq, rfl⟩)
      have hPRdisj : ∀ q ∈ pend, ∀ q' ∈ rest, q.1.id ≠ q'.1.id := by
        intro q hq q' hq' hcontra
        exact hdisjPR (List.mem_map.mpr ⟨q, hq, rfl⟩)
          (hcontra ▸ List.mem_map.mpr ⟨q', hq', rfl⟩)
      have hseen' : ∀ q ∈ rest, markSeen seen r.id q.1.id = false := by
        intro q hq
        rw [markSeen_other seen r.id q.1.id (hRneR q hq)]
        exact hseen q (List.mem_cons_of_mem _ hq)
      have launch : ∀ (pend0 : List (Runner × Sched)) (b0 : AsyncTask)
          (tr0 : List String),
          b0.err = b.err → b0.cancelled = b.cancelled → SameStruct b b0 →
          (∀ p ∈ pend0 ++ (r, s) :: rest, b0.mapResult p.1.id = none ∨
            ∃ ws, b0.mapResult p.1.id = some (GoVal.arr ws)) →
          (unitIds (pend0 ++ (r, s) :: rest)).Nodup →
          (∀ p ∈ pend0 ++ (r, s) :: rest, ∃ w, p.1.outcome = FnOutcome.ok w) →
          ∃ b' tr',
            (if s.eager = true then
                match r.doRun s b0 with
                | none => RunResult.hangs
                | some b1 => admitLoop b1 (markSeen seen r.id) pend0 (tr0 ++ [r.id]) rest
              else admitLoop b0 (markSeen seen r.id) (pend0 ++ [(r, s)]) tr0 rest) =
              RunResult.done b.err b' [] tr' ∧
            b'.err = b.err ∧ b'.cancelled = b.cancelled ∧ SameStruct b b' ∧
            (∀ k, (∀ p ∈ pend0 ++ (r, s) :: rest, p.1.id ≠ k) →
              b'.mapResult k = b0.mapResult k) := by
        intro pend0 b0 tr0 he0 hc0 hst0 hshape0 hnd0 hok0
        rw [unitIds_append, unitIds_cons] at hnd0
        obtain ⟨hrnot0, hndPR0⟩ := List.nodup_cons.mp (List.nodup_middle.mp hnd0)
        have hPneR0 : ∀ q ∈ pend0, q.1.id ≠ r.id := by
          intro q hq hcontra
          exact hrnot0 (List.mem_append_left _ (hcontra ▸ List.mem_map.mpr ⟨q, hq, rfl⟩))
        by_cases hea : s.eager = true
        · rw [if_pos hea]
          obtain ⟨b1, hd1, he1, hc1, hst1, hfr1⟩ :=
            doRun_ok_any r s b0 v hv
              (hshape0 (r, s) (List.mem_append_right _ (List.mem_cons_self _ _)))
          obtain ⟨b', tr', hloop, he', hc', hst', hfr'⟩ :=
            ih pend0 b1 (markSeen seen r.id) (tr0 ++ [r.id])
              (fun q hq => by
                rcases List.mem_append.mp hq with hq' | hq'
                · exact hok0 q (List.mem_append_left _ hq')
                · exact hok0 q
                    (List.mem_append_right _ (List.mem_cons_of_mem _ hq')))
              (by rw [unitIds_append]; exact hndPR0)
              hseen'
              (fun q hq => by
                have hne : q.1.id ≠ r.id := by
                  rcases List.mem_append.mp hq with hq' | hq'
                  · exact hPneR0 q hq'
                  · exact hRneR q hq'
                rw [hfr1 q.1.id hne]
                rcases List.mem_append.mp hq with hq' | hq'
                · exact hshape0 q (List.mem_append_left _ hq')
                · exact hshape0 q
                    (List.mem_append_right _ (List.mem_cons_of_mem _ hq')))
          have heq : b1.err = b.err := he1.trans he0
          refine ⟨b', tr', ?_, he'.trans heq, hc'.trans (hc1.trans hc0),
            hst0.trans (hst1.trans hst'), ?_⟩
          · simp only [hd1]
            rw [← heq]
            exact hloop
          · intro k hk
            have h1 : b'.mapResult k = b1.mapResult k := by
              apply hfr'
              intro q hq
              rcases List.mem_append.mp hq with hq' | hq'
              · exact hk q (List.mem_append_left _ hq')
              · exact hk q (List.mem_append_right _ (List.mem_cons_of_mem _ hq'))
            have h2 : b1.mapResult k = b0.mapResult k := by
              apply hfr1
              exact fun hcontra => hk (r, s)
                (List.mem_append_right _ (List.mem_cons_self _ _)) hcontra.symm
            rw [h1, h2]
        · rw [if_neg hea]
          have hsplit : (pend0 ++ [(r, s)]) ++ rest = pend0 ++ (r, s) :: rest := by
            rw [List.append_assoc, List.singleton_append]
          obtain ⟨b', tr', hloop, he', hc', hst', hfr'⟩ :=
            ih (pend0 ++ [(r, s)]) b0 (markSeen seen r.id) tr0
              (by rw [hsplit]; exact hok0)
              (by rw [hsplit, unitIds_append, unitIds_cons]; exact hnd0)
              hseen'
              (by rw [hsplit]; exact hshape0)
          refine ⟨b', tr', ?_, he'.trans he0, hc'.trans hc0, hst0.trans hst', ?_⟩
          · rw [← he0]
            exact hloop
          · intro k hk
            apply hfr'
            intro p hp
            exact hk p (by rw [← hsplit]; exact hp)
      simp only [admitLoop, hsc, Bool.false_and, Bool.false_eq_true, if_false]
      by_cases hp : 0 < b.runnerPoolSize
      · rw [if_pos hp]
        by_cases hc : b.cancelled = true
        · rw [if_pos hc]
          obtain ⟨b1, tr1, hrp, he1, hc1, hst1, hfr1⟩ :=
            runPend_ok_any pend b tr
              (fun q hq => hok q (List.mem_append_left _ hq))
              (fun q hq => hshape q (List.mem_append_left _ hq)) hndP
          refine ⟨b1, tr1, ?_, he1, hc1, hst1, ?_⟩
          · simp only [hrp, he1]
          · intro k hk
            apply hfr1
            intro q hq
            exact hk q (List.mem_append_left _ hq)
        · rw [if_neg hc]
          rw [Bool.not_eq_true] at hc
          by_cases hfull : b.runnerPoolSize ≤ (pend.length : Int)
          · rw [if_pos hfull]
            obtain ⟨b1, tr1, hrp, he1, hc1, hst1, hfr1⟩ :=
              runPend_ok_any pend b tr
                (fun q hq => hok q (List.mem_append_left _ hq))
                (fun q hq => hshape q (List.mem_append_left _ hq)) hndP
            obtain ⟨b', tr', hloop, he', hc', hst', hfr'⟩ :=
              launch [] b1 tr1 he1 hc1 hst1
                (fun q hq => by
                  rw [List.nil_append] at hq
                  have hne : ∀ q' ∈ pend, q'.1.id ≠ q.1.id := by
                    intro q' hq'
                    rcases List.mem_cons.mp hq with rfl | hq''
                    · exact hPneR q' hq'
                    · exact hPRdisj q' hq' q hq''
                  rw [hfr1 q.1.id hne]
                  exact hshape q (List.mem_append_right _ hq))
                (by rw [List.nil_append, unitIds_cons]
                    exact List.nodup_cons.mpr ⟨hrnotR, hndR⟩)
                (fun q hq => by
                  rw [List.nil_append] at hq
                  exact hok q (List.mem_append_right _ hq))
            refine ⟨b', tr', ?_, he', hc', hst', ?_⟩
            · simp only [hrp]
              exact hloop
            · intro k hk
              have h1 : b'.mapResult k = b1.mapResult k := by
                apply hfr'
                intro q hq
                rw [List.nil_append] at hq
                exact hk q (List.mem_append_right _ hq)
              have h2 : b1.mapResult k = b.mapResult k := by
                apply hfr1
                intro q hq
                exact hk q (List.mem_append_left _ hq)
              rw [h1, h2]
          · rw [if_neg hfull]
            obtain ⟨b', tr', hloop, he', hc', hst', hfr'⟩ :=
              launch pend b tr rfl rfl (SameStruct.refl b) hshape
                (by rw [unitIds_append, unitIds_cons]; exact hnd) hok
            exact ⟨b', tr', hloop, he', hc', hst', hfr'⟩
      · rw [if_neg hp]
        obtain ⟨b', tr', hloop, he', hc', hst', hfr'⟩ :=
          launch pend b tr rfl rfl (SameStruct.refl b) hshape
            (by rw [unitIds_append, unitIds_cons]; exact hnd) hok
        exact ⟨b', tr', hloop, he', hc', hst', hfr'⟩

theorem runPend_mixedFail (q1 : List (Runner × Sched)) :
    ∀ (rf : Runner × Sched) (q2 : List (Runner × Sched)) (b : AsyncTask)
      (tr : List String) (E : String),
    b.cancelled = false → b.err = none → b.cancelOnError = true →
    failMsg rf.1 = some E →
    (∀ p ∈ q1 ++ q2, ∃ v, p.1.outcome = FnOutcome.ok v) →
    (unitIds (q1 ++ rf :: q2)).Nodup →
    (∀ p ∈ q1 ++ rf :: q2, b.mapResult p.1.id = none) →
    ∃ b' tr', runPend b (q1 ++ rf :: q2) tr = some (b', tr') ∧
      b'.err = some E ∧ b'.cancelled = true ∧ SameStruct b b' ∧
      b'.mapResult rf.1.id = none ∧
      (∀ k, (∀ p ∈ q1 ++ rf :: q2, p.1.id ≠ k) →
        b'.mapResult k = b.mapResult k) := by
  induction q1 with
  | nil =>
      intro rf q2 b tr E hc he hco hf hok hnd hmap
      rw [List.nil_append] at hnd hmap
      rw [unitIds_cons, List.nodup_cons] at hnd
      obtain ⟨hfnot, hndQ⟩ := hnd
      have hQneF : ∀ q ∈ q2, q.1.id ≠ rf.1.id := by
        intro q hq hcontra
        exact hfnot (hcontra ▸ List.mem_map.mpr ⟨q, hq, rfl⟩)
      obtain ⟨b1, hd1, he1, hc1, hm1, hst1⟩ :=
        doRun_fail rf.1 rf.2 b E hf hc hco
      obtain ⟨b', tr', hrp, he', hc', hst', hfr'⟩ :=
        runPend_ok_any q2 b1 (tr ++ [rf.1.id])
          (by rw [List.nil_append] at hok; exact hok)
          (fun q hq => by
            rw [hm1]
            exact Or.inl (hmap q (List.mem_cons_of_mem _ hq)))
          hndQ
      refine ⟨b', tr', ?_, he'.trans he1, hc'.trans hc1, hst1.trans hst', ?_, ?_⟩
      · obtain ⟨rf1, rf2⟩ := rf
        simp only [List.nil_append, runPend, hd1]
        exact hrp
      · rw [hfr' rf.1.id (fun q hq => hQneF q hq), hm1]
        exact hmap rf (List.mem_cons_self _ _)
      · intro k hk
        rw [List.nil_append] at hk
        have h1 : b'.mapResult k = b1.mapResult k := by
          apply hfr'
          intro q hq
          exact hk q (List.mem_cons_of_mem _ hq)
        rw [h1, hm1]
  | cons hd q1' ih =>
      intro rf q2 b tr E hc he hco hf hok hnd hmap
      obtain ⟨r, s⟩ := hd
      obtain ⟨v, hv⟩ := hok (r, s) (List.mem_cons_self _ _)
      rw [List.cons_append, unitIds_cons, List.nodup_cons] at hnd
      obtain ⟨hrnot, hnd'⟩ := hnd
      rw [List.cons_append] at hmap
      obtain ⟨b1, hd1, he1, hc1, hst1, hw1, hfr1⟩ :=
        doRun_ok_write r s b v hv hc
          (hmap (r, s) (List.mem_cons_self _ _))
      obtain ⟨b', tr', hrp, he', hc', hst', hm', hfr'⟩ :=
        ih rf q2 b1 (tr ++ [r.id]) E hc1 (he1.trans he) (hst1.1.trans hco) hf
          (fun q hq => hok q (List.mem_cons_of_mem _ hq))
          hnd'
          (fun q hq => by
            have hne : q.1.id ≠ r.id := by
              intro hcontra
              exact hrnot (hcontra ▸ List.mem_map.mpr ⟨q, hq, rfl⟩)
            rw [hfr1 q.1.id hne]
            exact hmap q (List.mem_cons_of_mem _ hq))
      refine ⟨b', tr', ?_, he', hc', hst1.trans hst', hm', ?_⟩
      · rw [List.cons_append]
        simp only [runPend, hd1]
        exact hrp
      · intro k hk
        rw [List.cons_append] at hk
        have h1 : b'.mapResult k = b1.mapResult k := by
          apply hfr'
          intro q hq
          exact hk q (List.mem_cons_of_mem _ hq)
        have h2 : b1.mapResult k = b.mapResult k := by
          apply hfr1
          exact fun hcontra => hk (r, s) (List.mem_cons_self _ _) hcontra.symm
        rw [h1, h2]

theorem admitLoop_failInPend (rs : List (Runner × Sched)) :
    ∀ (q1 : List (Runner × Sched)) (rf : Runner × Sched)
      (q2 : List (Runner × Sched)) (b : AsyncTask) (seen : String → Bool)
      (tr : List String) (E : String),
    b.cancelled = false → b.err = none → b.cancelOnError = true →
    failMsg rf.1 = some E →
    (∀ p ∈ (q1 ++ q2) ++ rs, ∃ v, p.1.outcome = FnOutcome.ok v) →
    (unitIds ((q1 ++ rf :: q2) ++ rs)).Nodup →
    (∀ p ∈ rs, seen p.1.id = false) →
    (∀ p ∈ (q1 ++ rf :: q2) ++ rs, b.mapResult p.1.id = none) →
    ∃ b' tr', admitLoop b seen (q1 ++ rf :: q2) tr rs =
        RunResult.done (some E) b' [] tr' ∧
      b'.err = some E ∧ SameStruct b b' ∧ b'.mapResult rf.1.id = none := by
  induction rs with
  | nil =>
      intro q1 rf q2 b seen tr E hc he hco hf hok hnd hseen hmap
      rw [List.append_nil] at hok hnd hmap
      obtain ⟨b', tr', hrp, he', hc', hst', hm', hfr'⟩ :=
        runPend_mixedFail q1 rf q2 b tr E hc he hco hf hok hnd hmap
      refine ⟨b', tr', ?_, he', hst', hm'⟩
      simp only [admitLoop, hrp, he']
  | cons hd rest ih =>
      intro q1 rf q2 b seen tr E hc he hco hf hok hnd hseen hmap
      obtain ⟨r, s⟩ := hd
      obtain ⟨v, hv⟩ :=
        hok (r, s) (List.mem_append_right _ (List.mem_cons_self _ _))
      have hsc : seen r.id = false := hseen (r, s) (List.mem_cons_self _ _)
      rw [unitIds_append, unitIds_cons] at hnd
      obtain ⟨hrnot, hndPR⟩ := List.nodup_cons.mp (List.nodup_middle.mp hnd)
      have hrnotP : r.id ∉ unitIds (q1 ++ rf :: q2) :=
        fun hx => hrnot (List.mem_append_left _ hx)
      have hrnotR : r.id ∉ unitIds rest :=
        fun hx => hrnot (List.mem_append_right _ hx)
      have hndP : (unitIds (q1 ++ rf :: q2)).Nodup := (List.nodup_append.mp hndPR).1
      have hndR : (unitIds rest).Nodup := (List.nodup_append.mp hndPR).2.1
      have hdisjPR : (unitIds (q1 ++ rf :: q2)).Disjoint (unitIds rest) :=
        (List.nodup_append.mp hndPR).2.2
      have hPneR : ∀ q ∈ q1 ++ rf :: q2, q.1.id ≠ r.id := by
        intro q hq hcontra
        exact hrnotP (hcontra ▸ List.mem_map.mpr ⟨q, hq, rfl⟩)
      have hRneR : ∀ q ∈ rest, q.1.id ≠ r.id := by
        intro q hq hcontra
        exact hrnotR (hcontra ▸ List.mem_map.mpr ⟨q, hq, rfl⟩)
      have hPRdisj : ∀ q ∈ q1 ++ rf :: q2, ∀ q' ∈ rest, q.1.id ≠ q'.1.id := by
        intro q hq q' hq' hcontra
        exact hdisjPR (List.mem_map.mpr ⟨q, hq, rfl⟩)
          (hcontra ▸ List.mem_map.mpr ⟨q', hq', rfl⟩)
      have hrfmem : rf ∈ q1 ++ rf :: q2 :=
        List.mem_append_right _ (List.mem_cons_self _ _)
      have hseen' : ∀ q ∈ rest, markSeen seen r.id q.1.id = false := by
        intro q hq
        rw [markSeen_other seen r.id q.1.id (hRneR q hq)]
        exact hseen q (List.mem_cons_of_mem _ hq)
      have hsplit : (q1 ++ rf :: q2) ++ [(r, s)] = q1 ++ rf :: (q2 ++ [(r, s)]) := by
        rw [List.append_assoc, List.cons_append]
      have hlaunch : ∃ b' tr',
          (if s.eager = true then
              match r.doRun s b with
              | none => RunResult.hangs
              | some b1 =>
                  admitLoop b1 (markSeen seen r.id) (q1 ++ rf :: q2) (tr ++ [r.id]) rest
            else admitLoop b (markSeen seen r.id) ((q1 ++ rf :: q2) ++ [(r, s)]) tr rest) =
            RunResult.done (some E) b' [] tr' ∧
          b'.err = some E ∧ SameStruct b b' ∧ b'.mapResult rf.1.id = none := by
        by_cases hea : s.eager = true
        · rw [if_pos hea]
          obtain ⟨b1, hd1, he1, hc1, hst1, hw1, hfr1⟩ :=
            doRun_ok_write r s b v hv hc
              (hmap (r, s) (List.mem_append_right _ (List.mem_cons_self _ _)))
          obtain ⟨b', tr', hloop, he', hst', hm'⟩ :=
            ih q1 rf q2 b1 (markSeen seen r.id) (tr ++ [r.id]) E hc1
              (he1.trans he) (hst1.1.trans hco) hf
              (fun q hq => by
                rcases List.mem_append.mp hq with hq' | hq'
                · exact hok q (List.mem_append_left _ hq')
                · exact hok q
                    (List.mem_append_right _ (List.mem_cons_of_mem _ hq')))
              (by rw [unitIds_append]; exact hndPR)
              hseen'
              (fun q hq => by
                have hne : q.1.id ≠ r.id := by
                  rcases List.mem_append.mp hq with hq' | hq'
                  · exact hPneR q hq'
                  · exact hRneR q hq'
                rw [hfr1 q.1.id hne]
                exact hmap q (by
                  rcases List.mem_append.mp hq with hq' | hq'
                  · exact List.mem_append_left _ hq'
                  · exact List.mem_append_right _ (List.mem_cons_of_mem _ hq')))
          refine ⟨b', tr', ?_, he', hst1.trans hst', hm'⟩
          simp only [hd1]
          exact hloop
        · rw [if_neg hea]
          have hokperm : (q1 ++ (q2 ++ [(r, s)])) ++ rest = (q1 ++ q2) ++ (r, s) :: rest := by
            rw [← List.append_assoc q1 q2 [(r, s)], List.append_assoc (q1 ++ q2),
              List.singleton_append]
          have hfullperm : (q1 ++ rf :: (q2 ++ [(r, s)])) ++ rest =
              (q1 ++ rf :: q2) ++ (r, s) :: rest := by
            rw [← hsplit, List.append_assoc, List.singleton_append]
          obtain ⟨b', tr', hloop, he', hst', hm'⟩ :=
            ih q1 rf (q2 ++ [(r, s)]) b (markSeen seen r.id) tr E hc he hco hf
              (by rw [hokperm]; exact hok)
              (by rw [hfullperm, unitIds_append, unitIds_cons]; exact hnd)
              hseen'
              (by rw [hfullperm]; exact hmap)
          rw [hsplit]
          exact ⟨b', tr', hloop, he', hst', hm'⟩
      simp only [admitLoop, hsc, Bool.false_and, Bool.false_eq_true, if_false]
      by_cases hp : 0 < b.runnerPoolSize
      · rw [if_pos hp, if_neg (by simp [hc])]
        by_cases hfull : b.runnerPoolSize ≤ ((q1 ++ rf :: q2).length : Int)
        · rw [if_pos hfull]
          obtain ⟨b1, tr1, hrp, he1, hc1, hst1, hm1, hfr1⟩ :=
            runPend_mixedFail q1 rf q2 b tr E hc he hco hf
              (fun q hq => hok q (List.mem_append_left _ hq)) hndP
              (fun q hq => hmap q (List.mem_append_left _ hq))
          simp only [hrp]
          by_cases hea : s.eager = true
          · rw [if_pos hea]
            obtain ⟨b2, hd2, he2, hc2, hst2, hfr2⟩ :=
              doRun_ok_any r s b1 v hv
                (by
                  rw [hfr1 r.id (fun q hq => hPneR q hq)]
                  exact Or.inl (hmap (r, s)
                    (List.mem_append_right _ (List.mem_cons_self _ _))))
            obtain ⟨b', tr', hloop, he', hc', hst', hfr'⟩ :=
              admitLoop_ok_any rest [] b2 (markSeen seen r.id) (tr1 ++ [r.id])
                (fun q hq => by
                  rw [List.nil_append] at hq
                  exact hok q
                    (List.mem_append_right _ (List.mem_cons_of_mem _ hq)))
                (by rw [List.nil_append]; exact hndR)
                hseen'
                (fun q hq => by
                  rw [List.nil_append] at hq
                  rw [hfr2 q.1.id (hRneR q hq),
                    hfr1 q.1.id (fun q' hq' => hPRdisj q' hq' q hq)]
                  exact Or.inl (hmap q
                    (List.mem_append_right _ (List.mem_cons_of_mem _ hq))))
            have he2E : b2.err = some E := he2.trans he1
            refine ⟨b', tr', ?_, he'.trans he2E,
              (hst1.trans hst2).trans hst', ?_⟩
            · simp only [hd2]
              rw [← he2E]
              exact hloop
            · have h1 : b'.mapResult rf.1.id = b2.mapResult rf.1.id := by
                apply hfr'
                intro q hq
                rw [List.nil_append] at hq
                exact (hPRdisj rf hrfmem q hq).symm
              rw [h1, hfr2 rf.1.id (hPneR rf hrfmem), hm1]
          · rw [if_neg hea]
            obtain ⟨b', tr', hloop, he', hc', hst', hfr'⟩ :=
              admitLoop_ok_any rest [(r, s)] b1 (markSeen seen r.id) tr1
                (fun q hq => by
                  rcases List.mem_cons.mp (by simpa using hq) with rfl | hq'
                  · exact ⟨v, hv⟩
                  · exact hok q
                      (List.mem_append_right _ (List.mem_cons_of_mem _ hq')))
                (by
                  rw [List.singleton_append, unitIds_cons]
                  exact List.nodup_cons.mpr ⟨hrnotR, hndR⟩)
                hseen'
                (fun q hq => by
                  rcases List.mem_cons.mp (by simpa using hq) with rfl | hq'
                  · rw [hfr1 r.id (fun q' hq' => hPneR q' hq')]
                    exact Or.inl (hmap (r, s)
                      (List.mem_append_right _ (List.mem_cons_self _ _)))
                  · rw [hfr1 q.1.id (fun w hw => hPRdisj w hw q hq')]
                    exact Or.inl (hmap q
                      (List.mem_append_right _ (List.mem_cons_of_mem _ hq'))))
            refine ⟨b', tr', ?_, he'.trans he1, hst1.trans hst', ?_⟩
            · rw [← he1]
              exact hloop
            · have h1 : b'.mapResult rf.1.id = b1.mapResult rf.1.id := by
                apply hfr'
                intro q hq
                rcases List.mem_cons.mp (by simpa using hq) with rfl | hq'
                · exact (hPneR rf hrfmem).symm
                · exact (hPRdisj rf hrfmem q hq').symm
              rw [h1, hm1]
        · rw [if_neg hfull]
          exact hlaunch
      · rw [if_neg hp]
        exact hlaunch

theorem admitLoop_singleFail (rs1 : List (Runner × Sched)) :
    ∀ (rf : Runner × Sched) (rs2 pend : List (Runner × Sched)) (b : AsyncTask)
      (seen : String → Bool) (tr : List String) (E : String),
    b.cancelled = false → b.err = none → b.cancelOnError = true →
    failMsg rf.1 = some E →
    (∀ p ∈ pend ++ rs1 ++ rs2, ∃ v, p.1.outcome = FnOutcome.ok v) →
    (unitIds (pend ++ rs1 ++ rf :: rs2)).Nodup →
    (∀ p ∈ rs1 ++ rf :: rs2, seen p.1.id = false) →
    (∀ p ∈ pend ++ rs1 ++ rf :: rs2, b.mapResult p.1.id = none) →
    ∃ b' tr', admitLoop b seen pend tr (rs1 ++ rf :: rs2) =
        RunResult.done (some E) b' [] tr' ∧
      b'.err = some E ∧ SameStruct b b' ∧ b'.mapResult rf.1.id = none := by
  induction rs1 with
  | nil =>
      intro rf rs2 pend b seen tr E hc he hco hf hok hnd hseen hmap
      obtain ⟨f, fs⟩ := rf
      rw [List.append_nil] at hok hnd hmap
      rw [List.nil_append] at hseen ⊢
      have hsc : seen f.id = false := hseen (f, fs) (List.mem_cons_self _ _)
      rw [unitIds_append, unitIds_cons] at hnd
      obtain ⟨hrnot, hndPR⟩ := List.nodup_cons.mp (List.nodup_middle.mp hnd)
      have hrnotP : f.id ∉ unitIds pend :=
        fun hx => hrnot (List.mem_append_left _ hx)
      have hrnotR : f.id ∉ unitIds rs2 :=
        fun hx => hrnot (List.mem_append_right _ hx)
      have hndP : (unitIds pend).Nodup := (List.nodup_append.mp hndPR).1
      have hndR : (unitIds rs2).Nodup := (List.nodup_append.mp hndPR).2.1
      have hdisjPR : (unitIds pend).Disjoint (unitIds rs2) :=
        (List.nodup_append.mp hndPR).2.2
      have hPneF : ∀ q ∈ pend, q.1.id ≠ f.id := by
        intro q hq hcontra
        exact hrnotP (hcontra ▸ List.mem_map.mpr ⟨q, hq, rfl⟩)
      have hRneF : ∀ q ∈ rs2, q.1.id ≠ f.id := by
        intro q hq hcontra
        exact hrnotR (hcontra ▸ List.mem_map.mpr ⟨q, hq, rfl⟩)
      have hPRdisj : ∀ q ∈ pend, ∀ q' ∈ rs2, q.1.id ≠ q'.1.id := by
        intro q hq q' hq' hcontra
        exact hdisjPR (List.mem_map.mpr ⟨q, hq, rfl⟩)
          (hcontra ▸ List.mem_map.mpr ⟨q', hq', rfl⟩)
      have hseen' : ∀ q ∈ rs2, markSeen seen f.id q.1.id = false := by
        intro q hq
        rw [markSeen_other seen f.id q.1.id (hRneF q hq)]
        exact hseen q (List.mem_cons_of_mem _ hq)
      have hfmem : (f, fs) ∈ pend ++ (f, fs) :: rs2 :=
        List.mem_append_right _ (List.mem_cons_self _ _)
      have hlaunch : ∃ b' tr',
          (if fs.eager = true then
              match f.doRun fs b with
              | none => RunResult.hangs
              | some b1 =>
                  admitLoop b1 (markSeen seen f.id) pend (tr ++ [f.id]) rs2
            else admitLoop b (markSeen seen f.id) (pend ++ [(f, fs)]) tr rs2) =
            RunResult.done (some E) b' [] tr' ∧
          b'.err = some E ∧ SameStruct b b' ∧ b'.mapResult f.id = none := by
        by_cases hea : fs.eager = true
        · rw [if_pos hea]
          obtain ⟨b2, hd2, he2, hc2, hm2, hst2⟩ :=
            doRun_fail f fs b E hf hc hco
          obtain ⟨b', tr', hloop, he', hc', hst', hfr'⟩ :=
            admitLoop_ok_any rs2 pend b2 (markSeen seen f.id) (tr ++ [f.id])
              (fun q hq => hok q hq)
              (by rw [unitIds_append]; exact hndPR)
              hseen'
              (fun q hq => by
                rw [hm2]
                refine Or.inl (hmap q ?_)
                rcases List.mem_append.mp hq with hq' | hq'
                · exact List.mem_append_left _ hq'
                · exact List.mem_append_right _ (List.mem_cons_of_mem _ hq'))
          refine ⟨b', tr', ?_, he'.trans he2, hst2.trans hst', ?_⟩
          · simp only [hd2]
            rw [← he2]
            exact hloop
          · rw [hfr' f.id (fun q hq => by
              rcases List.mem_append.mp hq with hq' | hq'
              · exact hPneF q hq'
              · exact hRneF q hq'), hm2]
            exact hmap (f, fs) hfmem
        · rw [if_neg hea]
          obtain ⟨b', tr', hloop, he', hst', hm'⟩ :=
            admitLoop_failInPend rs2 pend (f, fs) [] b (markSeen seen f.id) tr E
              hc he hco hf
              (fun q hq => by
                refine hok q ?_
                rcases List.mem_append.mp hq with hq' | hq'
                · rcases List.mem_append.mp hq' with hq'' | hq''
                  · exact List.mem_append_left _ hq''
                  · exact absurd hq'' (List.not_mem_nil q)
                · exact List.mem_append_right _ hq')
              (by
                have heq : (pend ++ (f, fs) :: ([] : List (Runner × Sched))) ++ rs2 =
                    pend ++ (f, fs) :: rs2 := by
                  rw [List.append_assoc, List.cons_append, List.nil_append]
                rw [heq, unitIds_append, unitIds_cons]
                exact hnd)
              hseen'
              (fun q hq => by
                have heq : (pend ++ (f, fs) :: ([] : List (Runner × Sched))) ++ rs2 =
                    pend ++ (f, fs) :: rs2 := by
                  rw [List.append_assoc, List.cons_append, List.nil_append]
                rw [heq] at hq
                exact hmap q hq)
          exact ⟨b', tr', hloop, he', hst', hm'⟩
      simp only [admitLoop, hsc, Bool.false_and, Bool.false_eq_true, if_false]
      by_cases hp : 0 < b.runnerPoolSize
      · rw [if_pos hp, if_neg (by simp [hc])]
        by_cases hfull : b.runnerPoolSize ≤ (pend.length : Int)
        · rw [if_pos hfull]
          obtain ⟨b1, tr1, hrp, he1, hc1, hst1, hw1, hfr1⟩ :=
            runPend_allOk pend b tr hc he
              (fun q hq => hok q (List.mem_append_left _ hq)) hndP
              (fun q hq => hmap q (List.mem_append_left _ hq))
          simp only [hrp]
          by_cases hea : fs.eager = true
          · rw [if_pos hea]
            obtain ⟨b2, hd2, he2, hc2, hm2, hst2⟩ :=
              doRun_fail f fs b1 E hf hc1 (hst1.1.trans hco)
            obtain ⟨b', tr', hloop, he', hc', hst', hfr'⟩ :=
              admitLoop_ok_any rs2 [] b2 (markSeen seen f.id) (tr1 ++ [f.id])
                (fun q hq => by
                  rw [List.nil_append] at hq
                  exact hok q (List.mem_append_right _ hq))
                (by rw [List.nil_append]; exact hndR)
                hseen'
                (fun q hq => by
                  rw [List.nil_append] at hq
                  rw [hm2, hfr1 q.1.id (fun w hw => hPRdisj w hw q hq)]
                  exact Or.inl (hmap q
                    (List.mem_append_right _ (List.mem_cons_of_mem _ hq))))
            refine ⟨b', tr', ?_, he'.trans he2, (hst1.trans hst2).trans hst', ?_⟩
            · simp only [hd2]
              rw [← he2]
              exact hloop
            · rw [hfr' f.id (fun q hq => by
                rw [List.nil_append] at hq
                exact hRneF q hq), hm2,
                hfr1 f.id (fun q hq => hPneF q hq)]
              exact hmap (f, fs) hfmem
          · rw [if_neg hea]
            obtain ⟨b', tr', hloop, he', hst', hm'⟩ :=
              admitLoop_failInPend rs2 [] (f, fs) [] b1 (markSeen seen f.id) tr1 E
                hc1 he1 (hst1.1.trans hco) hf
                (fun q hq => by
                  simp only [List.append_nil, List.nil_append] at hq
                  exact hok q (List.mem_append_right _ hq))
                (by
                  simp only [List.nil_append, List.singleton_append, unitIds_cons]
                  exact List.nodup_cons.mpr ⟨hrnotR, hndR⟩)
                hseen'
                (fun q hq => by
                  simp only [List.nil_append, List.singleton_append] at hq
                  rcases List.mem_cons.mp hq with rfl | hq'
                  · rw [hfr1 f.id (fun w hw => hPneF w hw)]
                    exact hmap (f, fs) hfmem
                  · rw [hfr1 q.1.id (fun w hw => hPRdisj w hw q hq')]
                    exact hmap q
                      (List.mem_append_right _ (List.mem_cons_of_mem _ hq')))
            refine ⟨b', tr', ?_, he', hst1.trans hst', hm'⟩
            simp only [List.nil_append] at hloop
            exact hloop
        · rw [if_neg hfull]
          exact hlaunch
      · rw [if_neg hp]
        exact hlaunch
  | cons hd1 rs1' ih =>
      intro rf rs2 pend b seen tr E hc he hco hf hok hnd hseen hmap
      obtain ⟨r, s⟩ := hd1
      rw [List.cons_append] at hseen ⊢
      have hconsFull : (pend ++ (r, s) :: rs1') ++ rf :: rs2 =
          pend ++ (r, s) :: (rs1' ++ rf :: rs2) := by
        rw [List.append_assoc, List.cons_append]
      have hconsOk : (pend ++ (r, s) :: rs1') ++ rs2 =
          pend ++ (r, s) :: (rs1' ++ rs2) := by
        rw [List.append_assoc, List.cons_append]
      rw [hconsFull] at hnd hmap
      rw [hconsOk] at hok
      obtain ⟨v, hv⟩ :=
        hok (r, s) (List.mem_append_right _ (List.mem_cons_self _ _))
      have hsc : seen r.id = false := hseen (r, s) (List.mem_cons_self _ _)
      rw [unitIds_append, unitIds_cons] at hnd
      obtain ⟨hrnot, hndPR⟩ := List.nodup_cons.mp (List.nodup_middle.mp hnd)
      have hrnotP : r.id ∉ unitIds pend :=
        fun hx => hrnot (List.mem_append_left _ hx)
      have hrnotR : r.id ∉ unitIds (rs1' ++ rf :: rs2) :=
        fun hx => hrnot (List.mem_append_right _ hx)
      have hndP : (unitIds pend).Nodup := (List.nodup_append.mp hndPR).1
      have hndR : (unitIds (rs1' ++ rf :: rs2)).Nodup :=
        (List.nodup_append.mp hndPR).2.1
      have hdisjPR : (unitIds pend).Disjoint (unitIds (rs1' ++ rf :: rs2)) :=
        (List.nodup_append.mp hndPR).2.2
      have hPneR : ∀ q ∈ pend, q.1.id ≠ r.id := by
        intro q hq hcontra
        exact hrnotP (hcontra ▸ List.mem_map.mpr ⟨q, hq, rfl⟩)
      have hRneR : ∀ q ∈ rs1' ++ rf :: rs2, q.1.id ≠ r.id := by
        intro q hq hcontra
        exact hrnotR (hcontra ▸ List.mem_map.mpr ⟨q, hq, rfl⟩)
      have hPRdisj : ∀ q ∈ pend, ∀ q' ∈ rs1' ++ rf :: rs2, q.1.id ≠ q'.1.id := by
        intro q hq q' hq' hcontra
        exact hdisjPR (List.mem_map.mpr ⟨q, hq, rfl⟩)
          (hcontra ▸ List.mem_map.mpr ⟨q', hq', rfl⟩)
      have hseen' : ∀ q ∈ rs1' ++ rf :: rs2, markSeen seen r.id q.1.id = false := by
        intro q hq
        rw [markSeen_other seen r.id q.1.id (hRneR q hq)]
        exact hseen q (List.mem_cons_of_mem _ hq)
      have hmemOk : ∀ q, q ∈ rs1' ++ rs2 → q ∈ pend ++ (r, s) :: (rs1' ++ rs2) :=
        fun q hq => List.mem_append_right _ (List.mem_cons_of_mem _ hq)
      have hmemFull : ∀ q, q ∈ rs1' ++ rf :: rs2 →
          q ∈ pend ++ (r, s) :: (rs1' ++ rf :: rs2) :=
        fun q hq => List.mem_append_right _ (List.mem_cons_of_mem _ hq)
      have hndRest : (unitIds ((pend ++ rs1') ++ rf :: rs2)).Nodup := by
        have heq : (pend ++ rs1') ++ rf :: rs2 = pend ++ (rs1' ++ rf :: rs2) := by
          rw [List.append_assoc]
        rw [heq, unitIds_append]
        exact hndPR
      have hlaunch : ∃ b' tr',
          (if s.eager = true then
              match r.doRun s b with
              | none => RunResult.hangs
              | some b1 =>
                  admitLoop b1 (markSeen seen r.id) pend (tr ++ [r.id])
                    (rs1' ++ rf :: rs2)
            else admitLoop b (markSeen seen r.id) (pend ++ [(r, s)]) tr
              (rs1' ++ rf :: rs2)) =
            RunResult.done (some E) b' [] tr' ∧
          b'.err = some E ∧ SameStruct b b' ∧ b'.mapResult rf.1.id = none := by
        by_cases hea : s.eager = true
        · rw [if_pos hea]
          obtain ⟨b1, hd1, he1, hc1, hst1, hw1, hfr1⟩ :=
            doRun_ok_write r s b v hv hc
              (hmap (r, s) (List.mem_append_right _ (List.mem_cons_self _ _)))
          obtain ⟨b', tr', hloop, he', hst', hm'⟩ :=
            ih rf rs2 pend b1 (markSeen seen r.id) (tr ++ [r.id]) E hc1
              (he1.trans he) (hst1.1.trans hco) hf
              (fun q hq => by
                refine hok q ?_
                rcases List.mem_append.mp hq with hq' | hq'
                · rcases List.mem_append.mp hq' with ha | hb
                  · exact List.mem_append_left _ ha
                  · exact hmemOk q (List.mem_append_left _ hb)
                · exact hmemOk q (List.mem_append_right _ hq'))
              hndRest
              hseen'
              (fun q hq => by
                have hq2 : q ∈ pend ++ (r, s) :: (rs1' ++ rf :: rs2) := by
                  rcases List.mem_append.mp hq with hq' | hq'
                  · rcases List.mem_append.mp hq' with ha | hb
                    · exact List.mem_append_left _ ha
                    · exact hmemFull q (List.mem_append_left _ hb)
                  · exact hmemFull q (List.mem_append_right _ hq')
                have hne : q.1.id ≠ r.id := by
                  rcases List.mem_append.mp hq with hq' | hq'
                  · rcases List.mem_append.mp hq' with ha | hb
                    · exact hPneR q ha
                    · exact hRneR q (List.mem_append_left _ hb)
                  · exact hRneR q (List.mem_append_right _ hq')
                rw [hfr1 q.1.id hne]
                exact hmap q hq2)
          refine ⟨b', tr', ?_, he', hst1.trans hst', hm'⟩
          simp only [hd1]
          exact hloop
        · rw [if_neg hea]
          have hsplit2 : (pend ++ [(r, s)]) ++ rs1' = pend ++ (r, s) :: rs1' := by
            rw [List.append_assoc, List.singleton_append]
          obtain ⟨b', tr', hloop, he', hst', hm'⟩ :=
            ih rf rs2 (pend ++ [(r, s)]) b (markSeen seen r.id) tr E hc he hco hf
              (by rw [hsplit2, hconsOk]; exact hok)
              (by rw [hsplit2, hconsFull, unitIds_append, unitIds_cons]
                  exact List.nodup_middle.mpr (List.nodup_cons.mpr ⟨hrnot, hndPR⟩))
              hseen'
              (by rw [hsplit2, hconsFull]; exact hmap)
          exact ⟨b', tr', hloop, he', hst', hm'⟩
      simp only [admitLoop, hsc, Bool.false_and, Bool.false_eq_true, if_false]
      by_cases hp : 0 < b.runnerPoolSize
      · rw [if_pos hp, if_neg (by simp [hc])]
        by_cases hfull : b.runnerPoolSize ≤ (pend.length : Int)
        · rw [if_pos hfull]
          obtain ⟨b1, tr1, hrp, he1, hc1, hst1, hw1, hfr1⟩ :=
            runPend_allOk pend b tr hc he
              (fun q hq => hok q (List.mem_append_left _ hq)) hndP
              (fun q hq => hmap q (List.mem_append_left _ hq))
          simp only [hrp]
          by_cases hea : s.eager = true
          · rw [if_pos hea]
            obtain ⟨b2, hd2, he2, hc2, hst2, hw2, hfr2⟩ :=
              doRun_ok_write r s b1 v hv hc1
                (by
                  rw [hfr1 r.id (fun q hq => hPneR q hq)]
                  exact hmap (r, s) (List.mem_append_right _ (List.mem_cons_self _ _)))
            obtain ⟨b', tr', hloop, he', hst', hm'⟩ :=
              ih rf rs2 [] b2 (markSeen seen r.id) (tr1 ++ [r.id]) E hc2
                (he2.trans he1) ((hst2.1.trans hst1.1).trans hco) hf
                (fun q hq => by
                  rw [List.nil_append] at hq
                  refine hok q ?_
                  rcases List.mem_append.mp hq with hq' | hq'
                  · exact hmemOk q (List.mem_append_left _ hq')
                  · exact hmemOk q (List.mem_append_right _ hq'))
                (by rw [List.nil_append]; exact hndR)
                hseen'
                (fun q hq => by
                  rw [List.nil_append] at hq
                  rw [hfr2 q.1.id (hRneR q hq),
                    hfr1 q.1.id (fun w hw => hPRdisj w hw q hq)]
                  exact hmap q (hmemFull q hq))
            refine ⟨b', tr', ?_, he', (hst1.trans hst2).trans hst', hm'⟩
            simp only [hd2]
            exact hloop
          · rw [if_neg hea]
            obtain ⟨b', tr', hloop, he', hst', hm'⟩ :=
              ih rf rs2 [(r, s)] b1 (markSeen seen r.id) tr1 E hc1
                he1 (hst1.1.trans hco) hf
                (fun q hq => by
                  refine hok q ?_
                  rcases List.mem_append.mp hq with hq' | hq'
                  · rcases List.mem_append.mp hq' with ha | hb
                    · rcases List.mem_cons.mp ha with rfl | hz
                      · exact List.mem_append_right _ (List.mem_cons_self _ _)
                      · exact absurd hz (List.not_mem_nil q)
                    · exact hmemOk q (List.mem_append_left _ hb)
                  · exact hmemOk q (List.mem_append_right _ hq'))
                (by
                  have heq : ([(r, s)] ++ rs1') ++ rf :: rs2 =
                      (r, s) :: (rs1' ++ rf :: rs2) := by
                    rw [List.singleton_append, List.cons_append]
                  rw [heq, unitIds_cons]
                  exact List.nodup_cons.mpr ⟨hrnotR, hndR⟩)
                hseen'
                (fun q hq => by
                  have heq : ([(r, s)] ++ rs1') ++ rf :: rs2 =
                      (r, s) :: (rs1' ++ rf :: rs2) := by
                    rw [List.singleton_append, List.cons_append]
                  rw [heq] at hq
                  rcases List.mem_cons.mp hq with rfl | hq'
                  · rw [hfr1 r.id (fun w hw => hPneR w hw)]
                    exact hmap (r, s)
                      (List.mem_append_right _ (List.mem_cons_self _ _))
                  · rw [hfr1 q.1.id (fun w hw => hPRdisj w hw q hq')]
                    exact hmap q (hmemFull q hq'))
            refine ⟨b', tr', hloop, he', hst1.trans hst', hm'⟩
        · rw [if_neg hfull]
          exact hlaunch
      · rw [if_neg hp]
        exact hlaunch

theorem admitLoop_mult (rs : List (Runner × Sched)) :
    ∀ (pend : List (Runner × Sched)) (b : AsyncTask) (seen : String → Bool)
      (tr : List String) (k : String),
    b.cancelled = false → b.err = none →
    (∀ p ∈ pend ++ rs, p.1.id = k ∧ p.1.multiple = true ∧
      ∃ v, p.1.outcome = FnOutcome.ok v ∧ v.isNil = false) →
    (b.mapResult k = none ∨ ∃ ws, b.mapResult k = some (GoVal.arr ws)) →
    ∃ b' tr', admitLoop b seen pend tr rs = RunResult.done none b' [] tr' ∧
      b'.err = none ∧ b'.cancelled = false ∧ SameStruct b b' ∧
      (b'.mapResult k = none ∨ ∃ ws, b'.mapResult k = some (GoVal.arr ws)) ∧
      arrLenAt b' k = arrLenAt b k + (pend ++ rs).length := by
  induction rs with
  | nil =>
      intro pend b seen tr k hc he hall hshape
      rw [List.append_nil] at hall
      obtain ⟨b', tr', hrp, he', hc', hst', hshape', hlen, hfr⟩ :=
        runPend_mult pend b tr k hc he hall hshape
      refine ⟨b', tr', ?_, he', hc', hst', hshape', ?_⟩
      · simp only [admitLoop, hrp, he']
      · rw [hlen]
        simp
  | cons hd rest ih =>
      intro pend b seen tr k hc he hall hshape
      obtain ⟨r, s⟩ := hd
      obtain ⟨hid, hmu, v, hv, hvnil⟩ :=
        hall (r, s) (List.mem_append_right _ (List.mem_cons_self _ _))
      subst hid
      have launch : ∀ (pend0 : List (Runner × Sched)) (b0 : AsyncTask)
          (tr0 : List String),
          b0.cancelled = false → b0.err = none → SameStruct b b0 →
          (∀ p ∈ pend0 ++ (r, s) :: rest, p.1.id = r.id ∧ p.1.multiple = true ∧
            ∃ w, p.1.outcome = FnOutcome.ok w ∧ w.isNil = false) →
          (b0.mapResult r.id = none ∨
            ∃ ws, b0.mapResult r.id = some (GoVal.arr ws)) →
          ∃ b' tr',
            (if s.eager = true then
                match r.doRun s b0 with
                | none => RunResult.hangs
                | some b1 =>
                    admitLoop b1 (markSeen seen r.id) pend0 (tr0 ++ [r.id]) rest
              else admitLoop b0 (markSeen seen r.id) (pend0 ++ [(r, s)]) tr0 rest) =
              RunResult.done none b' [] tr' ∧
            b'.err = none ∧ b'.cancelled = false ∧ SameStruct b0 b' ∧
            (b'.mapResult r.id = none ∨
              ∃ ws, b'.mapResult r.id = some (GoVal.arr ws)) ∧
            arrLenAt b' r.id = arrLenAt b0 r.id + (pend0 ++ (r, s) :: rest).length := by
        intro pend0 b0 tr0 hc0 he0 hst0 hall0 hshape0
        by_cases hea : s.eager = true
        · rw [if_pos hea]
          obtain ⟨b1, hd1, he1, hc1, hst1, ⟨ws', hws', hlen'⟩, hfr1⟩ :=
            doRun_mult_grow r s b0 v hv hvnil hmu hc0 hshape0
          obtain ⟨b', tr', hloop, he', hc', hst', hshape', hlen⟩ :=
            ih pend0 b1 (markSeen seen r.id) (tr0 ++ [r.id]) r.id hc1
              (he1.trans he0)
              (fun q hq => by
                rcases List.mem_append.mp hq with hq' | hq'
                · exact hall0 q (List.mem_append_left _ hq')
                · exact hall0 q
                    (List.mem_append_right _ (List.mem_cons_of_mem _ hq')))
              (Or.inr ⟨ws', hws'⟩)
          refine ⟨b', tr', ?_, he', hc', hst1.trans hst', hshape', ?_⟩
          · simp only [hd1]
            exact hloop
          · have hl1 : arrLenAt b1 r.id = arrLenAt b0 r.id + 1 := by
              unfold arrLenAt
              rw [hws']
              exact hlen'
            rw [hlen, hl1]
            simp only [List.length_append, List.length_cons]
            omega
        · rw [if_neg hea]
          have hsplit : (pend0 ++ [(r, s)]) ++ rest = pend0 ++ (r, s) :: rest := by
            rw [List.append_assoc, List.singleton_append]
          obtain ⟨b', tr', hloop, he', hc', hst', hshape', hlen⟩ :=
            ih (pend0 ++ [(r, s)]) b0 (markSeen seen r.id) tr0 r.id hc0 he0
              (by rw [hsplit]; exact hall0) hshape0
          refine ⟨b', tr', hloop, he', hc', hst', hshape', ?_⟩
          rw [hlen, hsplit]
      have hmu' : r.multiple = true := hmu
      simp only [admitLoop, hmu', Bool.not_true, Bool.and_false,
        Bool.false_eq_true, if_false]
      by_cases hp : 0 < b.runnerPoolSize
      · rw [if_pos hp, if_neg (by simp [hc])]
        by_cases hfull : b.runnerPoolSize ≤ (pend.length : Int)
        · rw [if_pos hfull]
          obtain ⟨b1, tr1, hrp, he1, hc1, hst1, hshape1, hlen1, hfr1⟩ :=
            runPend_mult pend b tr r.id hc he
              (fun q hq => hall q (List.mem_append_left _ hq)) hshape
          simp only [hrp]
          obtain ⟨b', tr', hloop, he', hc', hst', hshape', hlen⟩ :=
            launch [] b1 tr1 hc1 he1 hst1
              (fun q hq => by
                rw [List.nil_append] at hq
                exact hall q (List.mem_append_right _ hq))
              hshape1
          refine ⟨b', tr', hloop, he', hc', hst1.trans hst', hshape', ?_⟩
          rw [hlen, hlen1]
          simp only [List.nil_append, List.length_append, List.length_cons]
          omega
        · rw [if_neg hfull]
          obtain ⟨b', tr', hloop, he', hc', hst', hshape', hlen⟩ :=
            launch pend b tr hc he (SameStruct.refl b) hall hshape
          exact ⟨b', tr', hloop, he', hc', hst', hshape', hlen⟩
      · rw [if_neg hp]
        obtain ⟨b', tr', hloop, he', hc', hst', hshape', hlen⟩ :=
          launch pend b tr hc he (SameStruct.refl b) hall hshape
        exact ⟨b', tr', hloop, he', hc', hst', hshape', hlen⟩

/-- A non-duplicate exit of the admission loop: nothing is left in flight
and the returned error is the recorded batch error. -/
def GoodExit : RunResult → Prop
  | RunResult.done e st p _ => p = [] ∧ e = st.err
  | _ => True

theorem goodExit_wait (bX : AsyncTask) (pendX : List (Runner × Sched))
    (trX : List String) :
    GoodExit (match runPend bX pendX trX with
      | none => RunResult.hangs
      | some (b1, tr1) => RunResult.done b1.err b1 [] tr1) := by
  rcases runPend bX pendX trX with _ | ⟨b1, tr1⟩
  · exact trivial
  · exact ⟨rfl, rfl⟩

theorem admitLoop_noDup (rs : List (Runner × Sched)) :
    ∀ (pend : List (Runner × Sched)) (b : AsyncTask) (seen : String → Bool)
      (tr : List String),
    (∀ p ∈ rs, seen p.1.id = true → p.1.multiple = true) →
    List.Pairwise (fun p q => p.1.id = q.1.id → q.1.multiple = true) rs →
    GoodExit (admitLoop b seen pend tr rs) := by
  induction rs with
  | nil =>
      intro pend b seen tr _ _
      simp only [admitLoop]
      exact goodExit_wait b pend tr
  | cons hd rest ih =>
      intro pend b seen tr hseen hpw
      obtain ⟨r, s⟩ := hd
      obtain ⟨hhead, hpw'⟩ := List.pairwise_cons.mp hpw
      have hseen' : ∀ q ∈ rest, markSeen seen r.id q.1.id = true →
          q.1.multiple = true := by
        intro q hq hsq
        by_cases hqe : q.1.id = r.id
        · exact hhead q hq hqe.symm
        · rw [markSeen_other seen r.id q.1.id hqe] at hsq
          exact hseen q (List.mem_cons_of_mem _ hq) hsq
      have hdup : (seen r.id && !r.multiple) = false := by
        cases hsr : seen r.id with
        | false => simp
        | true =>
            have hm : r.multiple = true :=
              hseen (r, s) (List.mem_cons_self _ _) hsr
            simp [hm]
      simp only [admitLoop, hdup, Bool.false_eq_true, if_false]
      by_cases hp : 0 < b.runnerPoolSize
      · rw [if_pos hp]
        by_cases hcc : b.cancelled = true
        · rw [if_pos hcc]
          exact goodExit_wait b pend tr
        · rw [if_neg hcc]
          by_cases hfull : b.runnerPoolSize ≤ (pend.length : Int)
          · rw [if_pos hfull]
            rcases hrp : runPend b pend tr with _ | ⟨b1, tr1⟩ <;> simp only [hrp]
            · exact trivial
            · by_cases hea : s.eager = true
              · rw [if_pos hea]
                rcases hdr : r.doRun s b1 with _ | b2 <;> simp only [hdr]
                · exact trivial
                · exact ih [] b2 (markSeen seen r.id) (tr1 ++ [r.id]) hseen' hpw'
              · rw [if_neg hea]
                exact ih [(r, s)] b1 (markSeen seen r.id) tr1 hseen' hpw'
          · rw [if_neg hfull]
            by_cases hea : s.eager = true
            · rw [if_pos hea]
              rcases hdr : r.doRun s b with _ | b1 <;> simp only [hdr]
              · exact trivial
              · exact ih pend b1 (markSeen seen r.id) (tr ++ [r.id]) hseen' hpw'
            · rw [if_neg hea]
              exact ih (pend ++ [(r, s)]) b (markSeen seen r.id) tr hseen' hpw'
      · rw [if_neg hp]
        by_cases hea : s.eager = true
        · rw [if_pos hea]
          rcases hdr : r.doRun s b with _ | b1 <;> simp only [hdr]
          · exact trivial
          · exact ih pend b1 (markSeen seen r.id) (tr ++ [r.id]) hseen' hpw'
        · rw [if_neg hea]
          exact ih (pend ++ [(r, s)]) b (markSeen seen r.id) tr hseen' hpw'

theorem admitLoop_pool0 (rs : List (Runner × Sched)) :
    ∀ (pend : List (Runner × Sched)) (b : AsyncTask) (seen : String → Bool)
      (tr : List String),
    b.runnerPoolSize = 0 →
    (∀ p ∈ rs, seen p.1.id = true → p.1.multiple = true) →
    List.Pairwise (fun p q => p.1.id = q.1.id → q.1.multiple = true) rs →
    (∀ p ∈ pend ++ rs, cannotHang b.cancelOnError p.1 = true) →
    ∃ b' tr2, admitLoop b seen pend tr rs =
        RunResult.done b'.err b' [] (tr ++ tr2) ∧
      tr2.length = pend.length + rs.length ∧ SameStruct b b' := by
  induction rs with
  | nil =>
      intro pend b seen tr _ _ _ hnh
      rw [List.append_nil] at hnh
      obtain ⟨b', hrp, hst⟩ := runPend_light pend b tr hnh
      refine ⟨b', unitIds pend, ?_, ?_, hst⟩
      · simp only [admitLoop, hrp]
      · simp [unitIds]
  | cons hd rest ih =>
      intro pend b seen tr hp0 hseen hpw hnh
      obtain ⟨r, s⟩ := hd
      obtain ⟨hhead, hpw'⟩ := List.pairwise_cons.mp hpw
      have hseen' : ∀ q ∈ rest, markSeen seen r.id q.1.id = true →
          q.1.multiple = true := by
        intro q hq hsq
        by_cases hqe : q.1.id = r.id
        · exact hhead q hq hqe.symm
        · rw [markSeen_other seen r.id q.1.id hqe] at hsq
          exact hseen q (List.mem_cons_of_mem _ hq) hsq
      have hdup : (seen r.id && !r.multiple) = false := by
        cases hsr : seen r.id with
        | false => simp
        | true =>
            have hm : r.multiple = true :=
              hseen (r, s) (List.mem_cons_self _ _) hsr
            simp [hm]
      simp only [admitLoop, hdup, Bool.false_eq_true, if_false]
      rw [if_neg (by rw [hp0]; exact lt_irrefl 0)]
      by_cases hea : s.eager = true
      · rw [if_pos hea]
        obtain ⟨b1, hd1⟩ :=
          doRun_isSome_of_cannotHang r s b
            (hnh (r, s) (List.mem_append_right _ (List.mem_cons_self _ _)))
        have hst1 : SameStruct b b1 := doRun_struct r s b b1 hd1
        simp only [hd1]
        obtain ⟨b', tr2, hloop, hlen, hst'⟩ :=
          ih pend b1 (markSeen seen r.id) (tr ++ [r.id])
            (hst1.2.1.trans hp0) hseen' hpw'
            (fun q hq => by
              rw [hst1.1]
              rcases List.mem_append.mp hq with hq' | hq'
              · exact hnh q (List.mem_append_left _ hq')
              · exact hnh q
                  (List.mem_append_right _ (List.mem_cons_of_mem _ hq')))
        refine ⟨b', [r.id] ++ tr2, ?_, ?_, hst1.trans hst'⟩
        · rw [← List.append_assoc]
          exact hloop
        · simp at hlen ⊢
          omega
      · rw [if_neg hea]
        obtain ⟨b', tr2, hloop, hlen, hst'⟩ :=
          ih (pend ++ [(r, s)]) b (markSeen seen r.id) tr hp0 hseen' hpw'
            (fun q hq => by
              rcases List.mem_append.mp hq with hq' | hq'
              · rcases List.mem_append.mp hq' with ha | hb
                · exact hnh q (List.mem_append_left _ ha)
                · rcases List.mem_cons.mp hb with rfl | hz
                  · exact hnh _
                      (List.mem_append_right _ (List.mem_cons_self _ _))
                  · exact absurd hz (List.not_mem_nil _)
              · exact hnh q
                  (List.mem_append_right _ (List.mem_cons_of_mem _ hq')))
        refine ⟨b', tr2, hloop, ?_, hst'⟩
        simp at hlen ⊢
        omega

theorem admitLoop_reachDup (rs1 : List (Runner × Sched)) :
    ∀ (rd : Runner × Sched) (rs2 pend : List (Runner × Sched)) (b : AsyncTask)
      (seen : String → Bool) (tr : List String),
    b.cancelled = false → rd.1.multiple = false →
    (seen rd.1.id = true ∨ ∃ q ∈ rs1, q.1.id = rd.1.id) →
    (∀ p ∈ pend, ∃ v, p.1.outcome = FnOutcome.ok v) →
    (∀ p ∈ rs1, ∃ v, p.1.outcome = FnOutcome.ok v) →
    (∀ p ∈ rs1, seen p.1.id = true → p.1.multiple = true) →
    List.Pairwise (fun p q => p.1.id = q.1.id → q.1.multiple = true) rs1 →
    ∃ b' pend' tr',
      admitLoop b seen pend tr (rs1 ++ rd :: rs2) =
        RunResult.done (some (dupErrMsg rd.1.id)) (cancelContext b') pend' tr' ∧
      b'.cancelled = false ∧ SameStruct b b' := by
  induction rs1 with
  | nil =>
      intro rd rs2 pend b seen tr hc hmul hwit _ _ _ _
      obtain ⟨d, ds⟩ := rd
      rw [List.nil_append]
      have hsd : seen d.id = true := by
        rcases hwit with h | ⟨q, hq, _⟩
        · exact h
        · exact absurd hq (List.not_mem_nil q)
      have hdup : (seen d.id && !d.multiple) = true := by
        have hm : d.multiple = false := hmul
        rw [hsd, hm]
        rfl
      simp only [admitLoop, hdup, if_true]
      exact ⟨b, pend.map Prod.fst, tr, rfl, hc, SameStruct.refl b⟩
  | cons hd1 rs1' ih =>
      intro rd rs2 pend b seen tr hc hmul hwit hokP hokR hseen hpw
      obtain ⟨r, s⟩ := hd1
      rw [List.cons_append]
      obtain ⟨hhead, hpw'⟩ := List.pairwise_cons.mp hpw
      obtain ⟨v, hv⟩ := hokR (r, s) (List.mem_cons_self _ _)
      have hseen' : ∀ q ∈ rs1', markSeen seen r.id q.1.id = true →
          q.1.multiple = true := by
        intro q hq hsq
        by_cases hqe : q.1.id = r.id
        · exact hhead q hq hqe.symm
        · rw [markSeen_other seen r.id q.1.id hqe] at hsq
          exact hseen q (List.mem_cons_of_mem _ hq) hsq
      have hwit' : markSeen seen r.id rd.1.id = true ∨
          ∃ q ∈ rs1', q.1.id = rd.1.id := by
        rcases hwit with h | ⟨q, hq, hqid⟩
        · left
          by_cases hde : rd.1.id = r.id
          · rw [hde]
            simp
          · rw [markSeen_other seen r.id rd.1.id hde]
            exact h
        · rcases List.mem_cons.mp hq with rfl | hq'
          · left
            rw [← hqid]
            simp
          · exact Or.inr ⟨q, hq', hqid⟩
      have hokR' : ∀ p ∈ rs1', ∃ w, p.1.outcome = FnOutcome.ok w :=
        fun q hq => hokR q (List.mem_cons_of_mem _ hq)
      have hdup : (seen r.id && !r.multiple) = false := by
        cases hsr : seen r.id with
        | false => simp
        | true =>
            have hm : r.multiple = true :=
              hseen (r, s) (List.mem_cons_self _ _) hsr
            simp [hm]
      simp only [admitLoop, hdup, Bool.false_eq_true, if_false]
      by_cases hp : 0 < b.runnerPoolSize
      · rw [if_pos hp, if_neg (by simp [hc])]
        by_cases hfull : b.runnerPoolSize ≤ (pend.length : Int)
        · rw [if_pos hfull]
          obtain ⟨b1, hrp, hc1, hst1⟩ := runPend_ok_light pend b tr hokP
          simp only [hrp]
          by_cases hea : s.eager = true
          · rw [if_pos hea]
            obtain ⟨b2, hd2, hc2, hst2⟩ :=
              doRun_ok_cancelled r s b1 v hv
            simp only [hd2]
            obtain ⟨b', pend', tr', hloop, hc', hst'⟩ :=
              ih rd rs2 [] b2 (markSeen seen r.id)
                ((tr ++ unitIds pend) ++ [r.id])
                ((hc2.trans hc1).trans hc) hmul hwit'
                (fun q hq => absurd hq (List.not_mem_nil q))
                hokR' hseen' hpw'
            exact ⟨b', pend', tr', hloop, hc',
              ((hst1.trans hst2).trans hst')⟩
          · rw [if_neg hea]
            obtain ⟨b', pend', tr', hloop, hc', hst'⟩ :=
              ih rd rs2 [(r, s)] b1 (markSeen seen r.id) (tr ++ unitIds pend)
                (hc1.trans hc) hmul hwit'
                (fun q hq => by
                  rcases List.mem_cons.mp hq with rfl | hq'
                  · exact ⟨v, hv⟩
                  · exact absurd hq' (List.not_mem_nil q))
                hokR' hseen' hpw'
            exact ⟨b', pend', tr', hloop, hc', hst1.trans hst'⟩
        · rw [if_neg hfull]
          by_cases hea : s.eager = true
          · rw [if_pos hea]
            obtain ⟨b1, hd1, hc1, hst1⟩ := doRun_ok_cancelled r s b v hv
            simp only [hd1]
            obtain ⟨b', pend', tr', hloop, hc', hst'⟩ :=
              ih rd rs2 pend b1 (markSeen seen r.id) (tr ++ [r.id])
                (hc1.trans hc) hmul hwit' hokP hokR' hseen' hpw'
            exact ⟨b', pend', tr', hloop, hc', hst1.trans hst'⟩
          · rw [if_neg hea]
            obtain ⟨b', pend', tr', hloop, hc', hst'⟩ :=
              ih rd rs2 (pend ++ [(r, s)]) b (markSeen seen r.id) tr
                hc hmul hwit'
                (fun q hq => by
                  rcases List.mem_append.mp hq with hq' | hq'
                  · exact hokP q hq'
                  · rcases List.mem_cons.mp hq' with rfl | hz
                    · exact ⟨v, hv⟩
                    · exact absurd hz (List.not_mem_nil _))
                hokR' hseen' hpw'
            exact ⟨b', pend', tr', hloop, hc', hst'⟩
      · rw [if_neg hp]
        by_cases hea : s.eager = true
        · rw [if_pos hea]
          obtain ⟨b1, hd1, hc1, hst1⟩ := doRun_ok_cancelled r s b v hv
          simp only [hd1]
          obtain ⟨b', pend', tr', hloop, hc', hst'⟩ :=
            ih rd rs2 pend b1 (markSeen seen r.id) (tr ++ [r.id])
              (hc1.trans hc) hmul hwit' hokP hokR' hseen' hpw'
          exact ⟨b', pend', tr', hloop, hc', hst1.trans hst'⟩
        · rw [if_neg hea]
          obtain ⟨b', pend', tr', hloop, hc', hst'⟩ :=
            ih rd rs2 (pend ++ [(r, s)]) b (markSeen seen r.id) tr
              hc hmul hwit'
              (fun q hq => by
                rcases List.mem_append.mp hq with hq' | hq'
                · exact hokP q hq'
                · rcases List.mem_cons.mp hq' with rfl | hz
                  · exact ⟨v, hv⟩
                  · exact absurd hz (List.not_mem_nil _))
              hokR' hseen' hpw'
          exact ⟨b', pend', tr', hloop, hc', hst'⟩

theorem withSched_append (sf : Nat → Sched) (l1 : List Runner) :
    ∀ (l2 : List Runner) (i : Nat),
    withSched sf (l1 ++ l2) i = withSched sf l1 i ++ withSched sf l2 (i + l1.length) := by
  induction l1 with
  | nil => intro l2 i; simp [withSched]
  | cons r rest ih =>
      intro l2 i
      show (r, sf i) :: withSched sf (rest ++ l2) (i + 1) =
        (r, sf i) :: (withSched sf rest (i + 1) ++
          withSched sf l2 (i + (rest.length + 1)))
      rw [ih l2 (i + 1)]
      have harith : i + 1 + rest.length = i + (rest.length + 1) := by omega
      rw [harith]

theorem mem_of_mem_withSched (sf : Nat → Sched) (l : List Runner) :
    ∀ (i : Nat) (p : Runner × Sched), p ∈ withSched sf l i → p.1 ∈ l := by
  induction l with
  | nil => intro i p hp; exact absurd hp (List.not_mem_nil p)
  | cons r rest ih =>
      intro i p hp
      rcases List.mem_cons.mp hp with rfl | hp'
      · exact List.mem_cons_self _ _
      · exact List.mem_cons_of_mem _ (ih (i + 1) p hp')

theorem unitIds_withSched (sf : Nat → Sched) (l : List Runner) :
    ∀ (i : Nat), unitIds (withSched sf l i) = l.map Runner.id := by
  induction l with
  | nil => intro i; rfl
  | cons r rest ih =>
      intro i
      simp only [withSched, unitIds_cons, List.map_cons, ih (i + 1)]

theorem pairwise_withSched (P : Runner → Runner → Prop) (sf : Nat → Sched)
    (l : List Runner) :
    ∀ (i : Nat), List.Pairwise P l →
    List.Pairwise (fun p q => P p.1 q.1) (withSched sf l i) := by
  induction l with
  | nil => intro i _; exact List.Pairwise.nil
  | cons r rest ih =>
      intro i hpw
      obtain ⟨hhead, htail⟩ := List.pairwise_cons.mp hpw
      refine List.pairwise_cons.mpr ⟨?_, ih (i + 1) htail⟩
      intro q hq
      exact hhead q.1 (mem_of_mem_withSched sf rest (i + 1) q hq)

theorem dupErrMsg_contains (id : String) : ContainsStr (dupErrMsg id) id :=
  ⟨"ID ", " have been used before without `SetMultiple()`", rfl⟩

theorem timeLimitMsg_contains (id : String) : ContainsStr (timeLimitMsg id) id :=
  ⟨"runner with ID ", " reached its time limit", rfl⟩

theorem panicMsg_contains (m stk : String) :
    ContainsStr (panicRecoveredMsg m stk) "panic" := by
  refine ⟨"", " recovered. message: " ++ m ++ ". stacktrace: " ++ stk, ?_⟩
  rw [String.empty_append]
  unfold panicRecoveredMsg
  simp only [← String.append_assoc]
  rfl

theorem not_contains_of_length_lt (s pat : String) (h : s.length < pat.length) :
    ¬ ContainsStr s pat := by
  rintro ⟨pre, post, hcat⟩
  have hlen := congrArg String.length hcat
  rw [String.length_append, String.length_append] at hlen
  omega

/-- `safeResultChan` of `src/asynctask.go`, abstract state: once `close` has
run (`closed = true`), a `write` observes the closed signal and delivers
nothing; otherwise the value is handed to the reader. -/
structure SafeResultChanState where
  closed : Bool
  delivered : List (GoVal × Option String)

/-- `write` on the safe result channel: a write after close is dropped
without blocking or panicking. -/
def safeChanWrite (c : SafeResultChanState) (d : GoVal × Option String) :
    SafeResultChanState :=
  if c.closed then c else { c with delivered := c.delivered ++ [d] }

theorem mem_withSched_of_mem (sf : Nat → Sched) (l : List Runner) :
    ∀ (i : Nat) (r : Runner), r ∈ l → ∃ s, (r, s) ∈ withSched sf l i := by
  induction l with
  | nil => intro i r hr; exact absurd hr (List.not_mem_nil r)
  | cons q rest ih =>
      intro i r hr
      rcases List.mem_cons.mp hr with rfl | hr'
      · exact ⟨sf i, List.mem_cons_self _ _⟩
      · obtain ⟨s, hs⟩ := ih (i + 1) r hr'
        exact ⟨s, List.mem_cons_of_mem _ hs⟩

theorem withSched_length (sf : Nat → Sched) (l : List Runner) :
    ∀ i : Nat, (withSched sf l i).length = l.length := by
  induction l with
  | nil => intro i; rfl
  | cons q rest ih =>
      intro i
      simp only [withSched, List.length_cons, ih (i + 1)]

theorem goodExit_pending (res : RunResult) (h : GoodExit res) :
    res.pendingOf = [] ∧
    (res.completed = true → res.returned = res.stateOf.err) := by
  cases res with
  | panicked => exact ⟨rfl, fun hc => absurd hc (by decide)⟩
  | hangs => exact ⟨rfl, fun hc => absurd hc (by decide)⟩
  | done e st p t => exact ⟨h.1, fun _ => h.2⟩

/-- Schedule: every goroutine completes during admission; a cancelled
select takes the Done branch. -/
def allEager : Nat → Sched := fun _ => ⟨true, true⟩

/-- Schedule: the first registered runner is deferred to the wait phase
and delivers its result even under cancellation. -/
def deferFirst : Nat → Sched :=
  fun n => if n = 0 then ⟨false, false⟩ else ⟨true, true⟩

/-- Schedule: the second registered runner delivers its result even when
the batch context is already cancelled (the select race picks the result). -/
def deliverSecond : Nat → Sched :=
  fun n => if n = 1 then ⟨true, false⟩ else ⟨true, true⟩

/-- C3 (amended): the batch error slot is overwritten on every recording:
`processErr` and `recovery` store their error unconditionally, so when the
slot is already occupied the LAST recorded error wins, not the first. -/
theorem c3_error_slot_last_wins (b : AsyncTask) (e0 e m stk : String)
    (h : b.err = some e0) :
    (processErr b e).err = some e ∧
    (recovery b m stk).err = some (panicRecoveredMsg m stk) ∧
    (e ≠ e0 → (processErr b e).err ≠ b.err) := by
  refine ⟨processErr_err b e, recovery_err b m stk, ?_⟩
  intro hne
  rw [processErr_err, h]
  intro hcontra
  exact hne (Option.some.inj hcontra)

/-- C3 witness: a concrete occupied slot is overwritten. -/
theorem c3_error_slot_last_wins_witness :
    ({ NewAsyncTask with err := some "first" } : AsyncTask).err = some "first" ∧
    (processErr { NewAsyncTask with err := some "first" } "second").err =
      some "second" ∧
    (processErr { NewAsyncTask with err := some "first" } "second").err ≠
      ({ NewAsyncTask with err := some "first" } : AsyncTask).err := by
  have h := c3_error_slot_last_wins { NewAsyncTask with err := some "first" }
    "first" "second" "m" "stk" rfl
  exact ⟨rfl, h.1, h.2.2 (by decide)⟩

def c3Task : AsyncTask :=
  CancelOnError { NewAsyncTask with runners :=
    [⟨"a", false, 0, FnOutcome.fnErr "e1"⟩,
     ⟨"b", false, 0, FnOutcome.fnErr "e2"⟩] } false

/-- C3 counterexample: with two failing units the error returned by
`StartAndWait` is the second (last) recorded one, not the first. -/
theorem c3_claim_counterexample :
    (StartAndWait c3Task allEager).completed = true ∧
    (StartAndWait c3Task allEager).returned = some "e2" ∧
    (StartAndWait c3Task allEager).returned ≠ some "e1" := by
  refine ⟨rfl, rfl, ?_⟩
  intro h
  exact absurd (Option.some.inj h) (by decide)

/-- C4 (amended): on every non-duplicate run, `StartAndWait` returns only
after all admitted units finished or were skipped (nothing is left in
flight) and it returns the recorded batch error. -/
theorem c4_waits_unless_duplicate (b : AsyncTask) (sf : Nat → Sched)
    (hpw : List.Pairwise (fun a c => a.id = c.id → c.multiple = true) b.runners) :
    (StartAndWait b sf).pendingOf = [] ∧
    ((StartAndWait b sf).completed = true →
      (StartAndWait b sf).returned = (StartAndWait b sf).stateOf.err) := by
  apply goodExit_pending
  unfold StartAndWait
  by_cases hneg : b.runnerPoolSize < 0
  · rw [if_pos hneg]
    exact trivial
  · rw [if_neg hneg]
    exact admitLoop_noDup (withSched sf b.runners 0) [] b (fun _ => false) []
      (fun p _ hcontra => by simp at hcontra)
      (pairwise_withSched _ sf b.runners 0 hpw)

/-- C4 witness: a two-unit batch with distinct keys leaves nothing in
flight when `StartAndWait` returns. -/
theorem c4_waits_unless_duplicate_witness :
    (StartAndWait { NewAsyncTask with runners :=
        [⟨"a", false, 0, FnOutcome.ok (GoVal.str "x")⟩,
         ⟨"b", false, 0, FnOutcome.ok (GoVal.str "y")⟩] } allEager).pendingOf
      = [] := by
  have h := c4_waits_unless_duplicate { NewAsyncTask with runners :=
      [⟨"a", false, 0, FnOutcome.ok (GoVal.str "x")⟩,
       ⟨"b", false, 0, FnOutcome.ok (GoVal.str "y")⟩] } allEager
    (by
      refine List.pairwise_cons.mpr ⟨?_, List.pairwise_cons.mpr ⟨?_, List.Pairwise.nil⟩⟩
      · intro q hq hid
        rcases List.mem_singleton.mp hq with rfl
        exact absurd hid (by decide)
      · intro q hq
        exact absurd hq (List.not_mem_nil q))
  exact h.1

def c4Task : AsyncTask :=
  { NewAsyncTask with runners :=
      [⟨"a", false, 0, FnOutcome.ok (GoVal.str "v")⟩,
       ⟨"a", false, 0, FnOutcome.ok (GoVal.str "w")⟩] }

/-- C4 counterexample: on the duplicate-key path `StartAndWait` returns
while an admitted unit is still in flight, and that unit's late `do` call
still changes the orchestrator state after the return. -/
theorem c4_claim_counterexample :
    (StartAndWait c4Task deferFirst).pendingOf =
      [⟨"a", false, 0, FnOutcome.ok (GoVal.str "v")⟩] ∧
    (StartAndWait c4Task deferFirst).getRes "a" = GoVal.nil ∧
    (Runner.doRun ⟨"a", false, 0, FnOutcome.ok (GoVal.str "v")⟩ ⟨false, false⟩
        (StartAndWait c4Task deferFirst).stateOf).map
      (fun st => GetResult st "a") = some (GoVal.str "v") := by
  exact ⟨rfl, rfl, rfl⟩

/-- C6 (amended): a multiple-flagged write onto a key holding a non-nil,
non-slice value records the "cannot append result" error and leaves the
map untouched; but a non-multiple write never checks the stored shape: it
overwrites whatever is there (including a slice) and reports no error. -/
theorem c6_shape_mismatch_amended (r r2 : Runner) (b : AsyncTask)
    (id : String) (resp v : GoVal) (hm : r.multiple = true)
    (hrns : resp.isNil = false) (hstored : b.mapResult id = some v)
    (hv : v.isNil = false) (hvarr : ∀ xs, v ≠ GoVal.arr xs)
    (hm2 : r2.multiple = false) :
    (processResp r b id resp).err = some appendErrMsg ∧
    (processResp r b id resp).mapResult = b.mapResult ∧
    (processResp r2 b id resp).mapResult id = some resp ∧
    (processResp r2 b id resp).err = b.err := by
  rw [processResp_mult_mismatch r b id resp v hm hrns hstored hv hvarr,
    processResp_single r2 b id resp hm2 hrns]
  exact ⟨rfl, rfl, mapSet_same _ _ _, rfl⟩

/-- C6 witness: concrete mismatch and concrete silent overwrite of a
stored scalar, evaluated on explicit runners and state. -/
theorem c6_shape_mismatch_amended_witness :
    (processResp ⟨"a", true, 0, FnOutcome.ok (GoVal.str "w")⟩
      { NewAsyncTask with mapResult := mapSet NewAsyncTask.mapResult "a" (GoVal.str "v") }
      "a" (GoVal.str "w")).err = some appendErrMsg ∧
    (processResp ⟨"a", false, 0, FnOutcome.ok (GoVal.str "w")⟩
      { NewAsyncTask with mapResult := mapSet NewAsyncTask.mapResult "a" (GoVal.str "v") }
      "a" (GoVal.str "w")).mapResult "a" = some (GoVal.str "w") := by
  have h := c6_shape_mismatch_amended
    ⟨"a", true, 0, FnOutcome.ok (GoVal.str "w")⟩
    ⟨"a", false, 0, FnOutcome.ok (GoVal.str "w")⟩
    { NewAsyncTask with mapResult := mapSet NewAsyncTask.mapResult "a" (GoVal.str "v") }
    "a" (GoVal.str "w") (GoVal.str "v") rfl rfl rfl rfl
    (fun xs hx => GoVal.noConfusion hx) rfl
  exact ⟨h.1, h.2.2.1⟩

def c6Task : AsyncTask :=
  { NewAsyncTask with runners :=
      [⟨"a", false, 0, FnOutcome.ok (GoVal.str "v1")⟩,
       ⟨"a", true, 0, FnOutcome.ok (GoVal.str "v2")⟩] }

/-- C6 counterexample: a non-multiple write lands on a key that already
holds a slice (written by an earlier multiple unit), silently overwrites
it and no shape-mismatch error is reported — `StartAndWait` returns nil. -/
theorem c6_claim_counterexample :
    (StartAndWait c6Task deferFirst).completed = true ∧
    (StartAndWait c6Task deferFirst).returned = none ∧
    (StartAndWait c6Task deferFirst).resMap "a" = some (GoVal.str "v1") := by
  exact ⟨rfl, rfl, rfl⟩

/-- C10 (amended): pool size 0 (the default) means an unbounded pool: the
admission loop applies no capacity gating and every registered unit is
admitted and executed; but `SetRunnerPoolSize` stores a negative size
verbatim and `StartAndWait` then panics allocating `make(chan int, n)`. -/
theorem c10_pool_size_amended (b : AsyncTask) (sf : Nat → Sched)
    (hp0 : b.runnerPoolSize = 0)
    (hpw : List.Pairwise (fun a c => a.id = c.id → c.multiple = true) b.runners)
    (hnh : ∀ r ∈ b.runners, cannotHang b.cancelOnError r = true) :
    (StartAndWait b sf).completed = true ∧
    (StartAndWait b sf).traceOf.length = b.runners.length ∧
    ∀ n : Int, n < 0 →
      StartAndWait (SetRunnerPoolSize b n) sf = RunResult.panicked := by
  have hmain : (StartAndWait b sf).completed = true ∧
      (StartAndWait b sf).traceOf.length = b.runners.length := by
    unfold StartAndWait
    rw [if_neg (by omega)]
    obtain ⟨b', tr2, hloop, hlen, hst⟩ :=
      admitLoop_pool0 (withSched sf b.runners 0) [] b (fun _ => false) [] hp0
        (fun p _ hcontra => by simp at hcontra)
        (pairwise_withSched _ sf b.runners 0 hpw)
        (fun p hp => by
          rw [List.nil_append] at hp
          exact hnh p.1 (mem_of_mem_withSched sf b.runners 0 p hp))
    rw [hloop]
    refine ⟨rfl, ?_⟩
    show ([] ++ tr2 : List String).length = b.runners.length
    rw [List.nil_append, hlen, withSched_length]
    simp
  refine ⟨hmain.1, hmain.2, ?_⟩
  intro n hn
  unfold StartAndWait
  rw [if_pos (by simp [SetRunnerPoolSize]; omega)]

/-- C10 witness: a concrete two-unit batch with pool size 0 runs both
units to completion. -/
theorem c10_pool_size_amended_witness :
    (StartAndWait { NewAsyncTask with runners :=
        [⟨"a", false, 0, FnOutcome.ok (GoVal.str "x")⟩,
         ⟨"b", false, 0, FnOutcome.fnErr "boom"⟩] } allEager).traceOf.length
      = 2 := by
  have h := c10_pool_size_amended { NewAsyncTask with runners :=
      [⟨"a", false, 0, FnOutcome.ok (GoVal.str "x")⟩,
       ⟨"b", false, 0, FnOutcome.fnErr "boom"⟩] } allEager rfl
    (by
      refine List.pairwise_cons.mpr ⟨?_, List.pairwise_cons.mpr ⟨?_, List.Pairwise.nil⟩⟩
      · intro q hq hid
        rcases List.mem_singleton.mp hq with rfl
        exact absurd hid (by decide)
      · intro q hq
        exact absurd hq (List.not_mem_nil q))
    (by
      intro r hr
      rcases List.mem_cons.mp hr with rfl | hr'
      · rfl
      · rcases List.mem_singleton.mp hr' with rfl
        rfl)
  exact h.2.1

/-- C10 counterexample: a negative pool size stored by `SetRunnerPoolSize`
makes `StartAndWait` panic at the semaphore allocation, refuting "never
fails or panics" for `n ≤ 0`. -/
theorem c10_claim_counterexample :
    StartAndWait (SetRunnerPoolSize NewAsyncTask (-1)) allEager =
      RunResult.panicked ∧
    (StartAndWait (SetRunnerPoolSize NewAsyncTask (-1)) allEager).completed =
      false := by
  exact ⟨rfl, rfl⟩

/-- C1 (amended): in a fresh batch of pairwise-distinct keys in which every
unit's function returns a non-nil value with a nil error and no external
cancellation occurs, `StartAndWait` returns nil and each key maps to that
unit's return value — except that a multiple-flagged unit's value is
wrapped in a one-element slice. -/
theorem c1_all_ok_amended (b : AsyncTask) (sf : Nat → Sched)
    (hpool : 0 ≤ b.runnerPoolSize) (hc : b.cancelled = false)
    (he : b.err = none) (hmapn : ∀ k, b.mapResult k = none)
    (hnd : (b.runners.map Runner.id).Nodup)
    (hok : ∀ r ∈ b.runners, ∃ v, r.outcome = FnOutcome.ok v ∧ v.isNil = false) :
    (StartAndWait b sf).completed = true ∧
    (StartAndWait b sf).returned = none ∧
    ∀ r ∈ b.runners, ∀ v, r.outcome = FnOutcome.ok v →
      (StartAndWait b sf).getRes r.id =
        (if r.multiple = true then GoVal.arr [v] else v) := by
  unfold StartAndWait
  rw [if_neg (by omega)]
  obtain ⟨b', tr', hloop, he', hc', hst', hw', hfr'⟩ :=
    admitLoop_allOk (withSched sf b.runners 0) [] b (fun _ => false) [] hc he
      (fun p hp => by
        rw [List.nil_append] at hp
        obtain ⟨v, hv, _⟩ := hok p.1 (mem_of_mem_withSched sf b.runners 0 p hp)
        exact ⟨v, hv⟩)
      (by rw [List.nil_append, unitIds_withSched]; exact hnd)
      (fun p _ => rfl)
      (fun p _ => hmapn p.1.id)
  rw [hloop]
  refine ⟨rfl, rfl, ?_⟩
  intro r hr v hv
  obtain ⟨s0, hs0⟩ := mem_withSched_of_mem sf b.runners 0 r hr
  have hwrite := hw' (r, s0) (by rw [List.nil_append]; exact hs0) v hv
  obtain ⟨v', hv', hvnil⟩ := hok r hr
  have hvv : v' = v := by
    rw [hv] at hv'
    exact (FnOutcome.ok.inj hv').symm
  subst hvv
  show GetResult b' r.id = _
  rw [GetResult, hwrite]
  unfold okWrite
  rw [if_neg (by rw [hvnil]; exact Bool.false_ne_true)]
  by_cases hmu : r.multiple = true
  · rw [if_pos hmu, if_pos hmu]
    rfl
  · rw [if_neg hmu, if_neg hmu]
    rfl

def c1wTask : AsyncTask :=
  { NewAsyncTask with runners := [⟨"a", false, 0, FnOutcome.ok (GoVal.str "x")⟩] }

/-- C1 witness: a concrete fresh batch with one succeeding unit. -/
theorem c1_all_ok_amended_witness :
    ((c1wTask.runners.map Runner.id).Nodup) ∧
    (StartAndWait c1wTask allEager).returned = none ∧
    (StartAndWait c1wTask allEager).getRes "a" = GoVal.str "x" := by
  have hnd : (c1wTask.runners.map Runner.id).Nodup := by
    simp [c1wTask]
  have h := c1_all_ok_amended c1wTask allEager (by decide) rfl rfl
    (fun k => rfl) hnd
    (by
      intro r hr
      rcases List.mem_singleton.mp hr with rfl
      exact ⟨GoVal.str "x", rfl, rfl⟩)
  refine ⟨hnd, h.2.1, ?_⟩
  have hx := h.2.2 ⟨"a", false, 0, FnOutcome.ok (GoVal.str "x")⟩
    (List.mem_singleton.mpr rfl) (GoVal.str "x") rfl
  exact hx

def c1Task : AsyncTask :=
  { NewAsyncTask with runners := [⟨"a", true, 0, FnOutcome.ok (GoVal.str "x")⟩] }

/-- C1 counterexample: a multiple-flagged unit with a unique key succeeds,
yet `GetResult` yields a one-element slice rather than "exactly that
unit's return value", refuting the claim as stated. -/
theorem c1_claim_counterexample :
    (StartAndWait c1Task allEager).completed = true ∧
    (StartAndWait c1Task allEager).returned = none ∧
    (StartAndWait c1Task allEager).getRes "a" ≠ GoVal.str "x" := by
  refine ⟨rfl, rfl, ?_⟩
  intro h
  have hx : GoVal.arr [GoVal.str "x"] = GoVal.str "x" := h
  exact GoVal.noConfusion hx

/-- C8: a unit whose function returns the nil sentinel with a nil error
records nothing: the aggregator write is a no-op, and after a successful
batch the unit's key is absent from the result map, so `GetResult` yields
nil. -/
theorem c8_nil_result_not_recorded (rx : Runner) (bx : AsyncTask) (idx : String)
    (b : AsyncTask) (sf : Nat → Sched) (rn : Runner)
    (hpool : 0 ≤ b.runnerPoolSize) (hc : b.cancelled = false)
    (he : b.err = none) (hmapn : ∀ k, b.mapResult k = none)
    (hnd : (b.runners.map Runner.id).Nodup)
    (hok : ∀ r ∈ b.runners, ∃ v, r.outcome = FnOutcome.ok v)
    (hrn : rn ∈ b.runners) (hnil : rn.outcome = FnOutcome.ok GoVal.nil) :
    processResp rx bx idx GoVal.nil = bx ∧
    (StartAndWait b sf).resMap rn.id = none ∧
    (StartAndWait b sf).getRes rn.id = GoVal.nil := by
  refine ⟨processResp_of_isNil rx bx idx GoVal.nil rfl, ?_⟩
  unfold StartAndWait
  rw [if_neg (by omega)]
  obtain ⟨b', tr', hloop, he', hc', hst', hw', hfr'⟩ :=
    admitLoop_allOk (withSched sf b.runners 0) [] b (fun _ => false) [] hc he
      (fun p hp => by
        rw [List.nil_append] at hp
        exact hok p.1 (mem_of_mem_withSched sf b.runners 0 p hp))
      (by rw [List.nil_append, unitIds_withSched]; exact hnd)
      (fun p _ => rfl)
      (fun p _ => hmapn p.1.id)
  rw [hloop]
  obtain ⟨s0, hs0⟩ := mem_withSched_of_mem sf b.runners 0 rn hrn
  have hwrite := hw' (rn, s0) (by rw [List.nil_append]; exact hs0)
    GoVal.nil hnil
  have hres : b'.mapResult rn.id = none := by
    rw [hwrite]
    rfl
  refine ⟨hres, ?_⟩
  show GetResult b' rn.id = GoVal.nil
  rw [GetResult, hres]
  rfl

def c8Task : AsyncTask :=
  { NewAsyncTask with runners := [⟨"a", false, 0, FnOutcome.ok GoVal.nil⟩] }

/-- C8 witness: a concrete unit returning nil leaves its key absent. -/
theorem c8_nil_result_not_recorded_witness :
    (StartAndWait c8Task allEager).resMap "a" = none ∧
    (StartAndWait c8Task allEager).getRes "a" = GoVal.nil := by
  have h := c8_nil_result_not_recorded
    ⟨"z", false, 0, FnOutcome.ok GoVal.nil⟩ NewAsyncTask "z"
    c8Task allEager ⟨"a", false, 0, FnOutcome.ok GoVal.nil⟩
    (by decide) rfl rfl (fun k => rfl)
    (by simp [c8Task])
    (by
      intro r hr
      rcases List.mem_singleton.mp hr with rfl
      exact ⟨GoVal.nil, rfl⟩)
    (List.mem_singleton.mpr rfl) rfl
  exact ⟨h.2.1, h.2.2⟩

/-- C7: a batch of units sharing one key, all multiple-flagged and all
returning non-nil values with nil errors, aggregates a slice under that
key whose length equals the number of units. -/
theorem c7_multiple_aggregation (b : AsyncTask) (sf : Nat → Sched) (k : String)
    (hpool : 0 ≤ b.runnerPoolSize) (hc : b.cancelled = false)
    (he : b.err = none) (hmapk : b.mapResult k = none)
    (hne : b.runners ≠ [])
    (hall : ∀ r ∈ b.runners, r.id = k ∧ r.multiple = true ∧
      ∃ v, r.outcome = FnOutcome.ok v ∧ v.isNil = false) :
    (StartAndWait b sf).completed = true ∧
    (StartAndWait b sf).returned = none ∧
    ∃ ws, (StartAndWait b sf).resMap k = some (GoVal.arr ws) ∧
      ws.length = b.runners.length := by
  unfold StartAndWait
  rw [if_neg (by omega)]
  obtain ⟨b', tr', hloop, he', hc', hst', hshape', hlen⟩ :=
    admitLoop_mult (withSched sf b.runners 0) [] b (fun _ => false) [] k hc he
      (fun p hp => by
        rw [List.nil_append] at hp
        exact hall p.1 (mem_of_mem_withSched sf b.runners 0 p hp))
      (Or.inl hmapk)
  rw [hloop]
  refine ⟨rfl, rfl, ?_⟩
  have hlen0 : arrLenAt b k = 0 := by
    unfold arrLenAt
    rw [hmapk]
  have hcount : arrLenAt b' k = b.runners.length := by
    rw [hlen, hlen0, List.nil_append, withSched_length]
    simp
  rcases hshape' with hnone | ⟨ws, hws⟩
  · exfalso
    have : arrLenAt b' k = 0 := by
      unfold arrLenAt
      rw [hnone]
    rw [this] at hcount
    exact hne (List.length_eq_zero.mp hcount.symm)
  · refine ⟨ws, hws, ?_⟩
    have : arrLenAt b' k = ws.length := by
      unfold arrLenAt
      rw [hws]
    rw [← this, hcount]

def c7Task : AsyncTask :=
  { NewAsyncTask with runners :=
      [⟨"k", true, 0, FnOutcome.ok (GoVal.int 1)⟩,
       ⟨"k", true, 0, FnOutcome.ok (GoVal.int 2)⟩,
       ⟨"k", true, 0, FnOutcome.ok (GoVal.int 3)⟩] }

/-- C7 witness: three multiple writers on one key yield a slice of
length three. -/
theorem c7_multiple_aggregation_witness :
    (StartAndWait c7Task allEager).returned = none ∧
    ∃ ws, (StartAndWait c7Task allEager).resMap "k" = some (GoVal.arr ws) ∧
      ws.length = 3 := by
  have h := c7_multiple_aggregation c7Task allEager "k" (by decide) rfl rfl rfl
    (by intro hcontra; exact absurd (congrArg List.length hcontra) (by decide))
    (by
      intro r hr
      rcases List.mem_cons.mp hr with rfl | hr'
      · exact ⟨rfl, rfl, GoVal.int 1, rfl, rfl⟩
      rcases List.mem_cons.mp hr' with rfl | hr''
      · exact ⟨rfl, rfl, GoVal.int 2, rfl, rfl⟩
      rcases List.mem_singleton.mp hr'' with rfl
      exact ⟨rfl, rfl, GoVal.int 3, rfl, rfl⟩)
  exact ⟨h.2.1, h.2.2⟩

theorem withSched_cons (sf : Nat → Sched) (r : Runner) (l : List Runner)
    (i : Nat) : withSched sf (r :: l) i = (r, sf i) :: withSched sf l (i + 1) :=
  rfl

/-- C2 (amended): when admission reaches a non-multiple unit whose key was
already admitted (all earlier units succeed, no earlier duplicate),
`StartAndWait` returns an error whose text contains that key, without
launching the duplicate, and cancellation is signalled exactly when
cancel-on-error is enabled; units admitted earlier may still contribute
results. -/
theorem c2_duplicate_key_amended (b : AsyncTask) (sf : Nat → Sched)
    (rd : Runner) (rs1 rs2 : List Runner)
    (hpool : 0 ≤ b.runnerPoolSize) (hc : b.cancelled = false)
    (hsplit : b.runners = rs1 ++ rd :: rs2) (hmul : rd.multiple = false)
    (hdup : ∃ r' ∈ rs1, r'.id = rd.id)
    (hok1 : ∀ r ∈ rs1, ∃ v, r.outcome = FnOutcome.ok v)
    (hpw : List.Pairwise (fun a c => a.id = c.id → c.multiple = true) rs1) :
    (StartAndWait b sf).completed = true ∧
    (StartAndWait b sf).returned = some (dupErrMsg rd.id) ∧
    ContainsStr (dupErrMsg rd.id) rd.id ∧
    (StartAndWait b sf).stateOf.cancelled = b.cancelOnError := by
  unfold StartAndWait
  rw [if_neg (by omega), hsplit, withSched_append, withSched_cons]
  obtain ⟨b', pend', tr', hloop, hc', hst'⟩ :=
    admitLoop_reachDup (withSched sf rs1 0) (rd, sf (0 + rs1.length))
      (withSched sf rs2 (0 + rs1.length + 1)) [] b (fun _ => false) [] hc hmul
      (Or.inr (by
        obtain ⟨r', hr', hid⟩ := hdup
        obtain ⟨s', hs'⟩ := mem_withSched_of_mem sf rs1 0 r' hr'
        exact ⟨(r', s'), hs', hid⟩))
      (fun p hp => absurd hp (List.not_mem_nil p))
      (fun p hp => hok1 p.1 (mem_of_mem_withSched sf rs1 0 p hp))
      (fun p _ hcontra => by simp at hcontra)
      (pairwise_withSched _ sf rs1 0 hpw)
  rw [hloop]
  refine ⟨rfl, rfl, dupErrMsg_contains rd.id, ?_⟩
  show (cancelContext b').cancelled = b.cancelOnError
  rw [cancelContext_cancelled, hc', hst'.1]
  simp

def c2wTask : AsyncTask :=
  { NewAsyncTask with runners :=
      [⟨"a", false, 0, FnOutcome.ok (GoVal.str "v")⟩,
       ⟨"a", false, 0, FnOutcome.ok (GoVal.str "w")⟩] }

/-- C2 witness: a concrete duplicate pair; the returned error names the
key and the context is cancelled (cancel-on-error defaults to true). -/
theorem c2_duplicate_key_amended_witness :
    (StartAndWait c2wTask allEager).completed = true ∧
    (StartAndWait c2wTask allEager).returned = some (dupErrMsg "a") ∧
    (StartAndWait c2wTask allEager).stateOf.cancelled = true := by
  have h := c2_duplicate_key_amended c2wTask allEager
    ⟨"a", false, 0, FnOutcome.ok (GoVal.str "w")⟩
    [⟨"a", false, 0, FnOutcome.ok (GoVal.str "v")⟩] []
    (by decide) rfl rfl rfl
    ⟨⟨"a", false, 0, FnOutcome.ok (GoVal.str "v")⟩,
      List.mem_singleton.mpr rfl, rfl⟩
    (by
      intro r hr
      rcases List.mem_singleton.mp hr with rfl
      exact ⟨GoVal.str "v", rfl⟩)
    (List.pairwise_cons.mpr ⟨fun q hq => absurd hq (List.not_mem_nil q),
      List.Pairwise.nil⟩)
  exact ⟨h.1, h.2.1, h.2.2.2⟩

def c2Task : AsyncTask :=
  { NewAsyncTask with runners :=
      [⟨"a", false, 0, FnOutcome.ok (GoVal.str "v")⟩,
       ⟨"a", false, 0, FnOutcome.ok (GoVal.str "w")⟩] }

/-- C2 counterexample: under the very scenario of the claim, the FIRST
unit registered under the duplicated key was already admitted, finished,
and its result DOES appear in the result map, refuting "neither duplicate
unit's result appears". -/
theorem c2_claim_counterexample :
    (StartAndWait c2Task allEager).completed = true ∧
    (StartAndWait c2Task allEager).returned = some (dupErrMsg "a") ∧
    (StartAndWait c2Task allEager).resMap "a" = some (GoVal.str "v") := by
  exact ⟨rfl, rfl, rfl⟩

/-- C5 (amended): a panicking unit never crashes the batch: the panic is
recovered, converted into an error carrying the panic value and stack
trace, recorded in the batch error slot and the context is cancelled;
when no later error overwrites the (last-wins) slot — here: all other
units succeed — `StartAndWait` returns that error, whose text contains
"panic". -/
theorem c5_panic_recovered_amended (b : AsyncTask) (sf : Nat → Sched)
    (rp : Runner) (rs1 rs2 : List Runner) (m stk : String)
    (hpool : 0 ≤ b.runnerPoolSize) (hc : b.cancelled = false)
    (he : b.err = none) (hco : b.cancelOnError = true)
    (hmapn : ∀ k, b.mapResult k = none)
    (hsplit : b.runners = rs1 ++ rp :: rs2)
    (hpo : rp.outcome = FnOutcome.panics m stk)
    (hok1 : ∀ r ∈ rs1, ∃ v, r.outcome = FnOutcome.ok v)
    (hok2 : ∀ r ∈ rs2, ∃ v, r.outcome = FnOutcome.ok v)
    (hnd : (b.runners.map Runner.id).Nodup) :
    (StartAndWait b sf).completed = true ∧
    (StartAndWait b sf).returned = some (panicRecoveredMsg m stk) ∧
    ContainsStr (panicRecoveredMsg m stk) "panic" := by
  unfold StartAndWait
  rw [if_neg (by omega), hsplit, withSched_append, withSched_cons]
  rw [hsplit, List.map_append, List.map_cons] at hnd
  obtain ⟨b', tr', hloop, he', hst', hm'⟩ :=
    admitLoop_singleFail (withSched sf rs1 0) (rp, sf (0 + rs1.length))
      (withSched sf rs2 (0 + rs1.length + 1)) [] b (fun _ => false) []
      (panicRecoveredMsg m stk) hc he hco
      (by simp [failMsg, hpo])
      (fun p hp => by
        rcases List.mem_append.mp hp with hp' | hp'
        · rw [List.nil_append] at hp'
          exact hok1 p.1 (mem_of_mem_withSched sf rs1 0 p hp')
        · exact hok2 p.1 (mem_of_mem_withSched sf rs2 _ p hp'))
      (by
        rw [List.nil_append, unitIds_append, unitIds_cons, unitIds_withSched,
          unitIds_withSched]
        exact hnd)
      (fun p _ => rfl)
      (fun p _ => hmapn p.1.id)
  rw [hloop]
  exact ⟨rfl, rfl, panicMsg_contains m stk⟩

def c5wTask : AsyncTask :=
  { NewAsyncTask with runners :=
      [⟨"p", false, 0, FnOutcome.panics "boom" "trace"⟩] }

/-- C5 witness: one concrete panicking unit. -/
theorem c5_panic_recovered_amended_witness :
    (StartAndWait c5wTask allEager).completed = true ∧
    (StartAndWait c5wTask allEager).returned =
      some (panicRecoveredMsg "boom" "trace") ∧
    ContainsStr (panicRecoveredMsg "boom" "trace") "panic" := by
  have h := c5_panic_recovered_amended c5wTask allEager
    ⟨"p", false, 0, FnOutcome.panics "boom" "trace"⟩ [] [] "boom" "trace"
    (by decide) rfl rfl rfl (fun k => rfl) rfl rfl
    (fun r hr => absurd hr (List.not_mem_nil r))
    (fun r hr => absurd hr (List.not_mem_nil r))
    (by simp [c5wTask])
  exact h

def c5Task : AsyncTask :=
  { NewAsyncTask with runners :=
      [⟨"p", false, 0, FnOutcome.panics "boom" "tb"⟩,
       ⟨"b", false, 0, FnOutcome.fnErr "x"⟩] }

/-- C5 counterexample: the panic is recovered and recorded, but a later
unit's delivered error overwrites the last-wins slot, so `StartAndWait`
returns an error that does not contain "panic" — refuting the claim as
stated. -/
theorem c5_claim_counterexample :
    (StartAndWait c5Task deliverSecond).completed = true ∧
    (StartAndWait c5Task deliverSecond).returned = some "x" ∧
    ¬ ContainsStr "x" "panic" := by
  exact ⟨rfl, rfl, not_contains_of_length_lt "x" "panic" (by decide)⟩

/-- C9 (amended): a unit whose function does not deliver before its
positive time limit makes the wrapper record a time-limit error naming the
unit's key; with no later overwrite of the (last-wins) slot,
`StartAndWait` returns it; the key stays absent from the result map, and a
write on the safe result channel after it is closed delivers nothing — the
late result is never visible via `GetResult`. -/
theorem c9_timeout_amended (b : AsyncTask) (sf : Nat → Sched)
    (rt : Runner) (rs1 rs2 : List Runner)
    (hpool : 0 ≤ b.runnerPoolSize) (hc : b.cancelled = false)
    (he : b.err = none) (hco : b.cancelOnError = true)
    (hmapn : ∀ k, b.mapResult k = none)
    (hsplit : b.runners = rs1 ++ rt :: rs2)
    (hto : rt.outcome = FnOutcome.never) (htpos : 0 < rt.timeout)
    (hok1 : ∀ r ∈ rs1, ∃ v, r.outcome = FnOutcome.ok v)
    (hok2 : ∀ r ∈ rs2, ∃ v, r.outcome = FnOutcome.ok v)
    (hnd : (b.runners.map Runner.id).Nodup) :
    (StartAndWait b sf).completed = true ∧
    (StartAndWait b sf).returned = some (timeLimitMsg rt.id) ∧
    ContainsStr (timeLimitMsg rt.id) rt.id ∧
    (StartAndWait b sf).resMap rt.id = none ∧
    (StartAndWait b sf).getRes rt.id = GoVal.nil ∧
    (∀ c d, c.closed = true → safeChanWrite c d = c) := by
  have hchan : ∀ (c : SafeResultChanState) (d : GoVal × Option String),
      c.closed = true → safeChanWrite c d = c := by
    intro c d hcl
    unfold safeChanWrite
    rw [if_pos hcl]
  unfold StartAndWait
  rw [if_neg (by omega), hsplit, withSched_append, withSched_cons]
  rw [hsplit, List.map_append, List.map_cons] at hnd
  obtain ⟨b', tr', hloop, he', hst', hm'⟩ :=
    admitLoop_singleFail (withSched sf rs1 0) (rt, sf (0 + rs1.length))
      (withSched sf rs2 (0 + rs1.length + 1)) [] b (fun _ => false) []
      (timeLimitMsg rt.id) hc he hco
      (by
        simp only [failMsg, hto]
        rw [if_pos htpos])
      (fun p hp => by
        rcases List.mem_append.mp hp with hp' | hp'
        · rw [List.nil_append] at hp'
          exact hok1 p.1 (mem_of_mem_withSched sf rs1 0 p hp')
        · exact hok2 p.1 (mem_of_mem_withSched sf rs2 _ p hp'))
      (by
        rw [List.nil_append, unitIds_append, unitIds_cons, unitIds_withSched,
          unitIds_withSched]
        exact hnd)
      (fun p _ => rfl)
      (fun p _ => hmapn p.1.id)
  rw [hloop]
  refine ⟨rfl, rfl, timeLimitMsg_contains rt.id, hm', ?_, hchan⟩
  show GetResult b' rt.id = GoVal.nil
  rw [GetResult, hm']
  rfl

def c9wTask : AsyncTask :=
  { NewAsyncTask with runners := [⟨"t", false, 5, FnOutcome.never⟩] }

/-- C9 witness: one concrete unit with a 5ns time limit whose function
never delivers. -/
theorem c9_timeout_amended_witness :
    (StartAndWait c9wTask allEager).returned = some (timeLimitMsg "t") ∧
    (StartAndWait c9wTask allEager).resMap "t" = none := by
  have h := c9_timeout_amended c9wTask allEager
    ⟨"t", false, 5, FnOutcome.never⟩ [] []
    (by decide) rfl rfl rfl (fun k => rfl) rfl rfl (by decide)
    (fun r hr => absurd hr (List.not_mem_nil r))
    (fun r hr => absurd hr (List.not_mem_nil r))
    (by simp [c9wTask])
  exact ⟨h.2.1, h.2.2.2.1⟩

def c9Task : AsyncTask :=
  { NewAsyncTask with runners :=
      [⟨"timeoutkey12345", false, 5, FnOutcome.never⟩,
       ⟨"b", false, 0, FnOutcome.fnErr "x"⟩] }

/-- C9 counterexample: the time-limit error is recorded, but a later
unit's delivered error overwrites the last-wins slot, so `StartAndWait`
returns an error that does not name the timed-out unit's key — refuting
the claim as stated. -/
theorem c9_claim_counterexample :
    (StartAndWait c9Task deliverSecond).completed = true ∧
    (StartAndWait c9Task deliverSecond).returned = some "x" ∧
    ¬ ContainsStr "x" "timeoutkey12345" := by
  exact ⟨rfl, rfl, not_contains_of_length_lt "x" "timeoutkey12345" (by decide)⟩
